import Mathlib

/-!
Shallow embedding of the exchange-connectivity core of the
adaptive-grid-trading-bot repository, with theorems checking the
natural-language specification against the code.

Conventions used throughout:
* Python `Decimal` values are modelled as `ℚ`.
* Python strings are modelled as `String` where only equality matters, and as
  `List Char` where character-level manipulation happens (symbol codec,
  error-message matching).
* Python `datetime` instants are modelled as integer milliseconds.
* A Python `dict` is modelled as an insertion-ordered association list
  (`List (key × value)`); assignment overwrites in place, new keys append.
* A Python function that can raise is modelled with `Except`; where a claim is
  about the object state left behind by a raise, the operation is modelled as
  returning the (unchanged) state together with an optional error.
* OMS callbacks are modelled by a log: each `_emit_callback(order)` event
  appends `order` to `callback_log` (the real code then calls every registered
  callback with that order, swallowing exceptions).
-/

/-- `src/exchange/models.py`, `OrderStatus`: the closed enumeration of order
statuses. The dataclass field `Order.status` is typed `str` in the source and
parsed to this enumeration by `OrderManager._parse_status`; the embedding works
directly at the enumeration level. -/
inductive OrderStatus where
  | pendingNew
  | new
  | partiallyFilled
  | filled
  | pendingCancel
  | canceled
  | rejected
  | expired
deriving DecidableEq, Fintype, Repr

/-- `src/oms/order_manager.py`, `OrderStateMachine.VALID_TRANSITIONS`. -/
def VALID_TRANSITIONS : OrderStatus → List OrderStatus
  | .pendingNew => [.new, .rejected]
  | .new => [.partiallyFilled, .filled, .pendingCancel, .canceled, .expired]
  | .partiallyFilled => [.filled, .pendingCancel, .canceled]
  | .pendingCancel => [.canceled]
  | .filled => []
  | .canceled => []
  | .rejected => []
  | .expired => []

/-- `OrderStateMachine.can_transition`. -/
def can_transition (from_status to_status : OrderStatus) : Bool :=
  decide (to_status ∈ VALID_TRANSITIONS from_status)

/-- `OrderStateMachine.is_terminal_state`. -/
def is_terminal_state (status : OrderStatus) : Bool :=
  decide (status ∈ [OrderStatus.filled, .canceled, .rejected, .expired])

/-- `OrderStateMachine.is_active_state`. -/
def is_active_state (status : OrderStatus) : Bool :=
  decide (status ∈ [OrderStatus.new, .partiallyFilled])

/-- `src/exchange/models.py`, `Order`: the normalized order record. -/
structure Order where
  order_id : String
  client_order_id : String
  symbol : String
  side : String
  order_type : String
  status : OrderStatus
  quantity : ℚ
  price : Option ℚ
  average_fill_price : ℚ
  commission : ℚ
  commission_asset : String
deriving DecidableEq, Repr

/-- Errors raised by OMS registry operations: `ValueError("... already
exists")` in `add_order` and `InvalidTransitionError` from
`validate_transition`. -/
inductive OMSError where
  | alreadyExists (order_id : String)
  | invalidTransition (from_status to_status : OrderStatus)
deriving DecidableEq, Repr

/-- State of an `OrderManager` (`src/oms/order_manager.py`): `_orders` maps
order id to order, `_orders_by_client_id` maps client order id to order id,
and `callback_log` records each `_emit_callback` event. -/
structure OMSState where
  orders : List (String × Order)
  orders_by_client_id : List (String × String)
  callback_log : List Order
deriving DecidableEq, Repr

/-- Python dict read `d.get(k)`: the value of the entry with key `k`. -/
def dictGet {α : Type} : List (String × α) → String → Option α
  | [], _ => none
  | kv :: rest, k => if kv.1 = k then some kv.2 else dictGet rest k

/-- Python dict assignment `d[k] = v`: overwrite in place if the key exists,
append otherwise. -/
def dictSet {α : Type} (l : List (String × α)) (k : String) (v : α) :
    List (String × α) :=
  if l.any (fun kv => kv.1 == k) then
    l.map (fun kv => if kv.1 = k then (k, v) else kv)
  else l ++ [(k, v)]

/-- `OrderManager.add_order`, modelled as (state after the call, raised
error).  The duplicate check happens before any mutation, so on error the
state is returned unchanged. -/
def add_order_run (st : OMSState) (o : Order) : OMSState × Option OMSError :=
  if (dictGet st.orders o.order_id).isSome then
    (st, some (.alreadyExists o.order_id))
  else
    ({ orders := st.orders ++ [(o.order_id, o)],
       orders_by_client_id :=
         dictSet st.orders_by_client_id o.client_order_id o.order_id,
       callback_log := st.callback_log ++ [o] }, none)

/-- `OrderManager.add_order` as an `Except`-valued operation (callers observe
the raised error). -/
def add_order (st : OMSState) (o : Order) : Except OMSError OMSState :=
  match add_order_run st o with
  | (st', none) => .ok st'
  | (_, some e) => .error e

/-- `OrderManager.update_order`: unknown ids delegate to `add_order`;
otherwise the status transition is validated only when the status changes,
then the stored record is replaced and callbacks fire. -/
def update_order (st : OMSState) (order_update : Order) :
    Except OMSError OMSState :=
  match dictGet st.orders order_update.order_id with
  | none => add_order st order_update
  | some existing_order =>
    if existing_order.status ≠ order_update.status ∧
        ¬ can_transition existing_order.status order_update.status then
      .error (.invalidTransition existing_order.status order_update.status)
    else
      .ok { orders := dictSet st.orders order_update.order_id order_update,
            orders_by_client_id := st.orders_by_client_id,
            callback_log := st.callback_log ++ [order_update] }

/-- `OrderManager.get_order`. -/
def get_order (st : OMSState) (order_id : String) : Option Order :=
  dictGet st.orders order_id

/-- Symbol filter used by `get_open_orders` (`symbol is None or order.symbol
== symbol`). -/
def matches_symbol (symbol : Option String) (o : Order) : Bool :=
  match symbol with
  | none => true
  | some s => o.symbol == s

/-- `OrderManager.get_open_orders`: all orders in an active state, optionally
filtered by symbol, in registry insertion order. -/
def get_open_orders (st : OMSState) (symbol : Option String) : List Order :=
  st.orders.filterMap fun kv =>
    if is_active_state kv.2.status && matches_symbol symbol kv.2 then
      some kv.2
    else none

/-- A sample registry state holding one FILLED order, used by witnesses. -/
def storedFilledOrder : Order :=
  { order_id := "777", client_order_id := "c777", symbol := "BTC/USDT",
    side := "BUY", order_type := "LIMIT", status := .filled,
    quantity := 2, price := some 100, average_fill_price := 100,
    commission := 0, commission_asset := "USDT" }

/-- An update for the same order id carrying status NEW (a backward move). -/
def updNewOrder : Order :=
  { storedFilledOrder with status := .new }

/-- The sample state containing only `storedFilledOrder`. -/
def sampleOMSState : OMSState :=
  { orders := [("777", storedFilledOrder)],
    orders_by_client_id := [("c777", "777")],
    callback_log := [] }

/-- C1: for an order stored with status `a` and an update carrying status `b`,
`update_order` succeeds — replacing the stored record — iff `a = b` (a
self-transition, applied without state-machine validation) or the transition
table `VALID_TRANSITIONS` permits `a → b`; otherwise it fails with
`InvalidTransition`; and the four terminal statuses admit no outgoing
transition. -/
theorem update_respects_state_machine (st : OMSState) (o upd : Order)
    (hstored : dictGet st.orders upd.order_id = some o) :
    (o.status = upd.status →
      update_order st upd =
        .ok { orders := dictSet st.orders upd.order_id upd,
              orders_by_client_id := st.orders_by_client_id,
              callback_log := st.callback_log ++ [upd] }) ∧
    (o.status ≠ upd.status →
      ((update_order st upd =
          .ok { orders := dictSet st.orders upd.order_id upd,
                orders_by_client_id := st.orders_by_client_id,
                callback_log := st.callback_log ++ [upd] }) ↔
        can_transition o.status upd.status = true) ∧
      (can_transition o.status upd.status = false →
        update_order st upd =
          .error (.invalidTransition o.status upd.status))) ∧
    (∀ t b : OrderStatus, is_terminal_state t = true →
      can_transition t b = false) := by
  refine ⟨?_, ?_, ?_⟩
  · intro heq
    simp [update_order, hstored, heq]
  · intro hne
    refine ⟨⟨?_, ?_⟩, ?_⟩
    · intro hok
      by_contra hcan
      simp only [Bool.not_eq_true] at hcan
      simp [update_order, hstored, hne, hcan] at hok
    · intro hcan
      simp [update_order, hstored, hcan]
    · intro hcan
      simp [update_order, hstored, hne, hcan]
  · intro t b
    revert t b
    decide

/-- Witness for C1: in the sample state, the stored order has status FILLED
and updating it to NEW is rejected with `InvalidTransition`. -/
theorem update_respects_state_machine_witness :
    dictGet sampleOMSState.orders updNewOrder.order_id =
        some storedFilledOrder ∧
    update_order sampleOMSState updNewOrder =
      .error (.invalidTransition .filled .new) :=
  ⟨by decide,
   ((update_respects_state_machine sampleOMSState storedFilledOrder updNewOrder
      (by decide)).2.1 (by decide)).2 (by decide)⟩

/-- C10: when an order with the same `order_id` is already present,
`add_order` raises the duplicate-id error before any mutation: the registry,
the client-order-id index and the callback log are all returned unchanged. -/
theorem add_order_duplicate_is_atomic (st : OMSState) (o : Order)
    (hdup : (dictGet st.orders o.order_id).isSome = true) :
    add_order_run st o = (st, some (.alreadyExists o.order_id)) := by
  simp [add_order_run, hdup]

/-- Witness for C10: adding a second order with id "777" to the sample state
fails and leaves the state untouched. -/
theorem add_order_duplicate_is_atomic_witness :
    (dictGet sampleOMSState.orders updNewOrder.order_id).isSome = true ∧
    add_order_run sampleOMSState updNewOrder =
      (sampleOMSState, some (.alreadyExists "777")) :=
  ⟨by decide,
   add_order_duplicate_is_atomic sampleOMSState updNewOrder (by decide)⟩

/-- `src/exchange/rate_limiter.py`, `RequestBucket`: a token bucket.  The
source stores `capacity : int` and `tokens : float`; both are modelled in `ℚ`.
`last_refill` is a timestamp in seconds. -/
structure RequestBucket where
  capacity : ℚ
  refill_rate : ℚ
  tokens : ℚ
  last_refill : ℚ
deriving DecidableEq, Repr

/-- `RequestBucket.refill`, lazily refilling at time `now`. -/
def RequestBucket.refill (b : RequestBucket) (now : ℚ) : RequestBucket :=
  { b with
    tokens := min b.capacity (b.tokens + (now - b.last_refill) * b.refill_rate),
    last_refill := now }

/-- `RequestBucket.consume`: refill, then consume `n` tokens if available.
Returns the mutated bucket and the success flag. -/
def RequestBucket.consume (b : RequestBucket) (now n : ℚ) :
    RequestBucket × Bool :=
  let b1 := b.refill now
  if n ≤ b1.tokens then ({ b1 with tokens := b1.tokens - n }, true)
  else (b1, false)

/-- `RequestBucket.wait_time`: refill, then report the wait until `n` tokens
are available.  Returns the mutated bucket and the wait. -/
def RequestBucket.wait_time (b : RequestBucket) (now n : ℚ) :
    RequestBucket × ℚ :=
  let b1 := b.refill now
  if n ≤ b1.tokens then (b1, 0)
  else (b1, (n - b1.tokens) / b1.refill_rate)

/-- `RateLimiter` mutable state: the three buckets plus the telemetry
counters. -/
structure RateLimiterState where
  request_bucket : RequestBucket
  weight_bucket : RequestBucket
  order_bucket : RequestBucket
  request_count : ℕ
  weight_used : ℕ
  order_count : ℕ
  rate_limit_hits : ℕ
deriving DecidableEq, Repr

/-- One `if not bucket.consume(n): wait_times.append(bucket.wait_time(n))`
step of `RateLimiter.acquire`: the bucket state threads through `consume` and,
on denial, through `wait_time`; `none` means the bucket granted. -/
def bucketTryConsume (b : RequestBucket) (now n : ℚ) :
    RequestBucket × Option ℚ :=
  let (b1, ok) := b.consume now n
  if ok then (b1, none)
  else
    let (b2, w) := b1.wait_time now n
    (b2, some w)

/-- Python `max` over a non-empty list (the `[]` case is unreachable in
`acquire`, where the list is checked non-empty first). -/
def pyMax : List ℚ → ℚ
  | [] => 0
  | [x] => x
  | x :: y :: xs => max x (pyMax (y :: xs))

/-- `max_wait = 30.0` in `RateLimiter.acquire`. -/
def MAX_WAIT : ℚ := 30

/-- One iteration of the `while True` loop body of `RateLimiter.acquire
(weight, is_order)` at instant `now`.  Returns the limiter state after the
iteration and `none` if the request was allowed (the loop returns), or
`some t` if the caller must sleep `t` seconds and retry. -/
def acquire_attempt (st : RateLimiterState) (now : ℚ) (weight : ℕ)
    (is_order : Bool) : RateLimiterState × Option ℚ :=
  let r := bucketTryConsume st.request_bucket now 1
  let w := bucketTryConsume st.weight_bucket now (weight : ℚ)
  let o :=
    if is_order then bucketTryConsume st.order_bucket now 1
    else (st.order_bucket, none)
  let wait_times := r.2.toList ++ w.2.toList ++ o.2.toList
  if wait_times.isEmpty then
    ({ st with
        request_bucket := r.1, weight_bucket := w.1, order_bucket := o.1,
        request_count := st.request_count + 1,
        weight_used := st.weight_used + weight,
        order_count := if is_order then st.order_count + 1
                       else st.order_count },
     none)
  else
    ({ st with
        request_bucket := r.1, weight_bucket := w.1, order_bucket := o.1,
        rate_limit_hits := st.rate_limit_hits + 1 },
     some (min (pyMax wait_times) MAX_WAIT))

/-- Refilling twice at the same instant is the same as refilling once. -/
theorem RequestBucket.refill_idem (b : RequestBucket) (now : ℚ) :
    (b.refill now).refill now = b.refill now := by
  simp only [RequestBucket.refill, sub_self, zero_mul, add_zero]
  rw [← min_assoc, min_self]

/-- A granting bucket: `consume` succeeds, no wait is recorded. -/
theorem bucketTryConsume_grant (b : RequestBucket) (now n : ℚ)
    (h : n ≤ (b.refill now).tokens) :
    bucketTryConsume b now n =
      ({ b.refill now with tokens := (b.refill now).tokens - n }, none) := by
  simp [bucketTryConsume, RequestBucket.consume, h]

/-- A denying bucket: `consume` fails and `wait_time` reports
`(n − tokens)/refill_rate` over the refilled token count. -/
theorem bucketTryConsume_deny (b : RequestBucket) (now n : ℚ)
    (h : ¬ n ≤ (b.refill now).tokens) :
    bucketTryConsume b now n =
      (b.refill now,
       some ((n - (b.refill now).tokens) / (b.refill now).refill_rate)) := by
  simp [bucketTryConsume, RequestBucket.consume, RequestBucket.wait_time, h,
    RequestBucket.refill_idem]

/-- A limiter state where the request bucket holds 5 tokens but the weight
bucket is empty: a `weight = 3` acquire is denied by the weight bucket. -/
def cexLimiter : RateLimiterState :=
  { request_bucket :=
      { capacity := 10, refill_rate := 1, tokens := 5, last_refill := 0 },
    weight_bucket :=
      { capacity := 10, refill_rate := 1, tokens := 0, last_refill := 0 },
    order_bucket :=
      { capacity := 3000, refill_rate := 300, tokens := 3000,
        last_refill := 0 },
    request_count := 0, weight_used := 0, order_count := 0,
    rate_limit_hits := 0 }

/-- Counterexample to C2 as stated: in `cexLimiter` at `now = 0`, the attempt
`acquire(weight = 3, is_order = false)` is denied (the weight bucket lacks 3
tokens, so the caller is told to sleep 3 s), yet the request bucket has
consumed a token: its count drops from 5 to 4.  The attempt is not
all-or-nothing. -/
theorem acquire_attempt_not_atomic :
    (acquire_attempt cexLimiter 0 3 false).2 = some 3 ∧
    (acquire_attempt cexLimiter 0 3 false).1.request_bucket.tokens = 4 := by
  have hreq : (1 : ℚ) ≤ (cexLimiter.request_bucket.refill 0).tokens := by
    norm_num [cexLimiter, RequestBucket.refill]
  have hwt : ¬ ((3 : ℕ) : ℚ) ≤ (cexLimiter.weight_bucket.refill 0).tokens := by
    norm_num [cexLimiter, RequestBucket.refill]
  constructor <;>
    · simp only [acquire_attempt, bucketTryConsume_grant _ _ _ hreq,
        bucketTryConsume_deny _ _ _ hwt, Option.toList]
      norm_num [cexLimiter, RequestBucket.refill, pyMax, MAX_WAIT]

set_option maxHeartbeats 2000000 in
/-- C2 (amended): a single attempt of the acquire loop consumes per bucket,
not atomically: each bucket that individually grants (after lazy refill)
keeps its consumption even when another bucket denies; a denying bucket is
only refilled.  The attempt succeeds iff all applicable buckets grant, and on
denial the caller is told to sleep the maximum of the denying buckets'
required waits `(n − tokens)/refill_rate`, clamped to 30 s. -/
theorem acquire_attempt_per_bucket (st : RateLimiterState) (now : ℚ)
    (weight : ℕ) (is_order : Bool) :
    (1 ≤ (st.request_bucket.refill now).tokens →
      (acquire_attempt st now weight is_order).1.request_bucket =
        { st.request_bucket.refill now with
            tokens := (st.request_bucket.refill now).tokens - 1 }) ∧
    (¬ 1 ≤ (st.request_bucket.refill now).tokens →
      (acquire_attempt st now weight is_order).1.request_bucket =
        st.request_bucket.refill now) ∧
    ((weight : ℚ) ≤ (st.weight_bucket.refill now).tokens →
      (acquire_attempt st now weight is_order).1.weight_bucket =
        { st.weight_bucket.refill now with
            tokens := (st.weight_bucket.refill now).tokens - (weight : ℚ) }) ∧
    (¬ (weight : ℚ) ≤ (st.weight_bucket.refill now).tokens →
      (acquire_attempt st now weight is_order).1.weight_bucket =
        st.weight_bucket.refill now) ∧
    (is_order = false →
      (acquire_attempt st now weight is_order).1.order_bucket =
        st.order_bucket) ∧
    ((acquire_attempt st now weight is_order).2 = none ↔
      (1 ≤ (st.request_bucket.refill now).tokens ∧
       (weight : ℚ) ≤ (st.weight_bucket.refill now).tokens ∧
       (is_order = true → 1 ≤ (st.order_bucket.refill now).tokens))) ∧
    ((acquire_attempt st now weight is_order).2 = none ∨
      (acquire_attempt st now weight is_order).2 =
        some (min (pyMax
          ((if 1 ≤ (st.request_bucket.refill now).tokens then []
            else [(1 - (st.request_bucket.refill now).tokens) /
                    (st.request_bucket.refill now).refill_rate]) ++
           (if (weight : ℚ) ≤ (st.weight_bucket.refill now).tokens then []
            else [((weight : ℚ) - (st.weight_bucket.refill now).tokens) /
                    (st.weight_bucket.refill now).refill_rate]) ++
           (if is_order = true ∧
                ¬ 1 ≤ (st.order_bucket.refill now).tokens then
              [(1 - (st.order_bucket.refill now).tokens) /
                 (st.order_bucket.refill now).refill_rate]
            else []))) MAX_WAIT)) := by
  by_cases hr : 1 ≤ (st.request_bucket.refill now).tokens <;>
    by_cases hw : (weight : ℚ) ≤ (st.weight_bucket.refill now).tokens <;>
    cases is_order <;>
    by_cases ho : 1 ≤ (st.order_bucket.refill now).tokens <;>
      simp [acquire_attempt, bucketTryConsume_grant, bucketTryConsume_deny,
        hr, hw, ho, pyMax]

/-- Witness for C2 (amended): in `cexLimiter` the weight bucket denies a
`weight = 3` request and is left merely refilled, not rolled back together
with the request bucket. -/
theorem acquire_attempt_per_bucket_witness :
    ¬ ((3 : ℕ) : ℚ) ≤ (cexLimiter.weight_bucket.refill 0).tokens ∧
    (acquire_attempt cexLimiter 0 3 false).1.weight_bucket =
      cexLimiter.weight_bucket.refill 0 :=
  ⟨by norm_num [cexLimiter, RequestBucket.refill],
   (acquire_attempt_per_bucket cexLimiter 0 3 false).2.2.2.1
     (by norm_num [cexLimiter, RequestBucket.refill])⟩

/-- `src/exchange/exceptions.py`: the exception classes, flattened to kinds.
`InvalidOrderError` and `InsufficientBalanceError` subclass `PermanentError`
in the source, but the mapper always returns a most-derived class, which is
what the kind records. -/
inductive ExceptionKind where
  | transientError
  | permanentError
  | rateLimitError
  | invalidOrderError
  | insufficientBalanceError
  | connectionError
  | websocketError
  | invalidTransitionError
  | exchangeAPIError
deriving DecidableEq, Repr

/-- An exception value: its class kind and its message. -/
structure RestError where
  kind : ExceptionKind
  message : String
deriving DecidableEq, Repr

/-- The loop of `retry_on_transient_error` (`src/utils/retry.py`), with
`exceptions = (TransientError,)`.  `f attempt` is the wrapped call's outcome
on the given 0-based attempt.  Returns (outcome, backoff delays slept, number
of attempts made).  `fuel` counts the remaining loop iterations of
`for attempt in range(max_attempts)`; the `fuel = 0` base case models falling
off the loop (reachable only when `max_attempts = 0`, where Python would
return `None`). -/
def retryGo {α : Type} (f : ℕ → Except RestError α)
    (max_attempts backoff_base : ℕ) :
    ℕ → ℕ → Except RestError α × List ℕ × ℕ
  | 0, _ => (.error ⟨.exchangeAPIError, "loop exhausted"⟩, [], 0)
  | fuel + 1, attempt =>
    match f attempt with
    | .ok a => (.ok a, [], 1)
    | .error e =>
      if e.kind = .transientError then
        if attempt = max_attempts - 1 then (.error e, [], 1)
        else
          let rest := retryGo f max_attempts backoff_base fuel (attempt + 1)
          (rest.1, backoff_base ^ attempt :: rest.2.1, rest.2.2 + 1)
      else (.error e, [], 1)

/-- `retry_on_transient_error(max_attempts, backoff_base)` applied to a
wrapped call `f`. -/
def retry_on_transient_error {α : Type} (max_attempts backoff_base : ℕ)
    (f : ℕ → Except RestError α) : Except RestError α × List ℕ × ℕ :=
  retryGo f max_attempts backoff_base max_attempts 0

/-- C8: with the gateway's decorator arguments (3 attempts, base 2): at most
3 attempts are made; the i-th backoff delay is `2 ^ i` seconds (0-based); a
non-transient error raised on any attempt propagates immediately with no
further attempts; and if every attempt raises a transient error, the last
transient error is raised after the third attempt. -/
theorem retry_policy {α : Type} (f : ℕ → Except RestError α) :
    (retry_on_transient_error 3 2 f).2.2 ≤ 3 ∧
    (retry_on_transient_error 3 2 f).2.1 =
      (List.range ((retry_on_transient_error 3 2 f).2.2 - 1)).map (2 ^ ·) ∧
    (∀ k e, k < 3 → f k = .error e → e.kind ≠ .transientError →
      (∀ j, j < k → ∃ e', f j = .error e' ∧ e'.kind = .transientError) →
      (retry_on_transient_error 3 2 f).1 = .error e ∧
      (retry_on_transient_error 3 2 f).2.2 = k + 1) ∧
    ((∀ j, j < 3 → ∃ e', f j = .error e' ∧ e'.kind = .transientError) →
      ∀ e₂, f 2 = .error e₂ →
        (retry_on_transient_error 3 2 f).1 = .error e₂ ∧
        (retry_on_transient_error 3 2 f).2.2 = 3) := by
  rcases hf0 : f 0 with e0 | a0
  · by_cases he0 : e0.kind = ExceptionKind.transientError
    · rcases hf1 : f 1 with e1 | a1
      · by_cases he1 : e1.kind = ExceptionKind.transientError
        · rcases hf2 : f 2 with e2 | a2
          · -- all three attempts raise transient-or-final errors
            have hres : retry_on_transient_error 3 2 f =
                (.error e2, [1, 2], 3) := by
              simp [retry_on_transient_error, retryGo, hf0, hf1, hf2, he0,
                he1]
            refine ⟨?_, ?_, ?_, ?_⟩
            · simp [hres]
            · simp [hres, List.range_succ]
            · intro k e hk hfk hne hprev
              rcases k with _ | k
              · rw [hf0] at hfk
                injection hfk with h
                exact absurd (h ▸ he0) hne
              · rcases k with _ | k
                · rw [hf1] at hfk
                  injection hfk with h
                  exact absurd (h ▸ he1) hne
                · rcases k with _ | k
                  · rw [hf2] at hfk
                    injection hfk with h
                    subst h
                    rw [hres]
                    exact ⟨rfl, rfl⟩
                  · omega
            · intro hall e₂ hf2e
              injection hf2e with h
              subst h
              rw [hres]
              exact ⟨rfl, rfl⟩
          · -- attempts 0 and 1 transient, attempt 2 succeeds
            have hres : retry_on_transient_error 3 2 f =
                (.ok a2, [1, 2], 3) := by
              simp [retry_on_transient_error, retryGo, hf0, hf1, hf2, he0,
                he1]
            refine ⟨?_, ?_, ?_, ?_⟩
            · simp [hres]
            · simp [hres, List.range_succ]
            · intro k e hk hfk hne hprev
              rcases k with _ | k
              · rw [hf0] at hfk
                injection hfk with h
                exact absurd (h ▸ he0) hne
              · rcases k with _ | k
                · rw [hf1] at hfk
                  injection hfk with h
                  exact absurd (h ▸ he1) hne
                · rcases k with _ | k
                  · rw [hf2] at hfk; cases hfk
                  · omega
            · intro hall
              obtain ⟨e', he', -⟩ := hall 2 (by omega)
              rw [hf2] at he'; cases he'
        · -- attempt 1 raises a non-transient error
          have hres : retry_on_transient_error 3 2 f =
              (.error e1, [1], 2) := by
            simp [retry_on_transient_error, retryGo, hf0, hf1, he0, he1]
          refine ⟨?_, ?_, ?_, ?_⟩
          · simp [hres]
          · simp [hres, List.range_succ]
          · intro k e hk hfk hne hprev
            rcases k with _ | k
            · rw [hf0] at hfk
              injection hfk with h
              exact absurd (h ▸ he0) hne
            · rcases k with _ | k
              · rw [hf1] at hfk
                injection hfk with h
                subst h
                rw [hres]
                exact ⟨rfl, rfl⟩
              · obtain ⟨e', he', ht'⟩ := hprev 1 (by omega)
                rw [hf1] at he'
                injection he' with h
                exact absurd (h ▸ ht') he1
          · intro hall
            obtain ⟨e', he', ht'⟩ := hall 1 (by omega)
            rw [hf1] at he'
            injection he' with h
            exact absurd (h ▸ ht') he1
      · -- attempt 0 transient, attempt 1 succeeds
        have hres : retry_on_transient_error 3 2 f =
            (.ok a1, [1], 2) := by
          simp [retry_on_transient_error, retryGo, hf0, hf1, he0]
        refine ⟨?_, ?_, ?_, ?_⟩
        · simp [hres]
        · simp [hres, List.range_succ]
        · intro k e hk hfk hne hprev
          rcases k with _ | k
          · rw [hf0] at hfk
            injection hfk with h
            exact absurd (h ▸ he0) hne
          · rcases k with _ | k
            · rw [hf1] at hfk; cases hfk
            · obtain ⟨e', he', -⟩ := hprev 1 (by omega)
              rw [hf1] at he'; cases he'
        · intro hall
          obtain ⟨e', he', -⟩ := hall 1 (by omega)
          rw [hf1] at he'; cases he'
    · -- attempt 0 raises a non-transient error
      have hres : retry_on_transient_error 3 2 f =
          (.error e0, [], 1) := by
        simp [retry_on_transient_error, retryGo, hf0, he0]
      refine ⟨?_, ?_, ?_, ?_⟩
      · simp [hres]
      · simp [hres, List.range_succ]
      · intro k e hk hfk hne hprev
        rcases k with _ | k
        · rw [hf0] at hfk
          injection hfk with h
          subst h
          rw [hres]
          exact ⟨rfl, rfl⟩
        · obtain ⟨e', he', ht'⟩ := hprev 0 (by omega)
          rw [hf0] at he'
          injection he' with h
          exact absurd (h ▸ ht') he0
      · intro hall
        obtain ⟨e', he', ht'⟩ := hall 0 (by omega)
        rw [hf0] at he'
        injection he' with h
        exact absurd (h ▸ ht') he0
  · -- attempt 0 succeeds
    have hres : retry_on_transient_error 3 2 f = (.ok a0, [], 1) := by
      simp [retry_on_transient_error, retryGo, hf0]
    refine ⟨?_, ?_, ?_, ?_⟩
    · simp [hres]
    · simp [hres, List.range_succ]
    · intro k e hk hfk hne hprev
      rcases k with _ | k
      · rw [hf0] at hfk; cases hfk
      · obtain ⟨e', he', -⟩ := hprev 0 (Nat.succ_pos k)
        rw [hf0] at he'; cases he'
    · intro hall
      obtain ⟨e', he', -⟩ := hall 0 (by omega)
      rw [hf0] at he'; cases he'

/-- A wrapped call that raises a transient error on attempt 0 and a permanent
error on attempt 1 (used by the C8 witness). -/
def retrySampleF : ℕ → Except RestError ℕ := fun n =>
  if n = 0 then .error ⟨.transientError, "temporary"⟩
  else .error ⟨.permanentError, "bad request"⟩

/-- Witness for C8: the permanent error on attempt 1 propagates immediately
after exactly 2 attempts. -/
theorem retry_policy_witness :
    retrySampleF 1 = .error ⟨.permanentError, "bad request"⟩ ∧
    (retry_on_transient_error 3 2 retrySampleF).1 =
      .error ⟨.permanentError, "bad request"⟩ ∧
    (retry_on_transient_error 3 2 retrySampleF).2.2 = 2 :=
  ⟨rfl,
   (retry_policy retrySampleF).2.2.1 1 ⟨.permanentError, "bad request"⟩
     (by omega) rfl (by simp)
     (fun j hj => ⟨⟨.transientError, "temporary"⟩, by
        interval_cases j
        exact ⟨rfl, rfl⟩⟩)⟩

/-- Substring test on character lists (`needle in haystack` in Python). -/
def listContainsSub (needle : List Char) : List Char → Bool
  | [] => needle.isEmpty
  | c :: rest => needle.isPrefixOf (c :: rest) || listContainsSub needle rest

/-- `'insufficient balance' in e.message.lower()`: case-insensitive
containment of the needle in the message. -/
def lowerContains (message needle : List Char) : Bool :=
  listContainsSub needle (message.map Char.toLower)

/-- `src/exchange/exchange_config.py`, `BINANCE_TRANSIENT_ERRORS`. -/
def BINANCE_TRANSIENT_ERRORS : List Int := [-1001, -1003, -1021, -1022]

/-- `src/exchange/exchange_config.py`, `BINANCE_PERMANENT_ERRORS`. -/
def BINANCE_PERMANENT_ERRORS : List Int :=
  [-1100, -1102, -2010, -2011, -4001, -4003, -4004, -4131, -4132]

/-- `is_transient_error` for the Binance exchange type. -/
def is_transient_error (error_code : Int) : Bool :=
  BINANCE_TRANSIENT_ERRORS.contains error_code

/-- `is_permanent_error` for the Binance exchange type. -/
def is_permanent_error (error_code : Int) : Bool :=
  BINANCE_PERMANENT_ERRORS.contains error_code

/-- The needle of the balance-message check: `'insufficient balance'`. -/
def INSUFFICIENT_BALANCE_NEEDLE : List Char := "insufficient balance".toList

/-- The invalid-order code tuple checked by the mapper:
`error_code in (-2010, -4001, -4003, -4004, -4131, -4132)`. -/
def MAPPER_INVALID_ORDER_CODES : List Int :=
  [-2010, -4001, -4003, -4004, -4131, -4132]

/-- `BinanceGateway._map_exception` (src/exchange/binance_gateway.py): maps a
`BinanceAPIException` with code `error_code` and message `message` to the
kind of the returned internal exception. -/
def map_exception (error_code : Int) (message : List Char) : ExceptionKind :=
  if error_code = -1003 then .rateLimitError
  else if MAPPER_INVALID_ORDER_CODES.contains error_code then
    .invalidOrderError
  else if lowerContains message INSUFFICIENT_BALANCE_NEEDLE then
    .insufficientBalanceError
  else if is_transient_error error_code then .transientError
  else if is_permanent_error error_code then .permanentError
  else .exchangeAPIError

/-- Counterexample to C3 as stated: error code `-2011` (cancel rejected) is
not in the mapper's invalid-order tuple; for a plain cancel-rejection message
it falls through to the permanent-error branch and maps to `PermanentError`,
not `InvalidOrderError`. -/
theorem map_exception_cancel_rejected_not_invalid_order :
    map_exception (-2011) "Unknown order sent.".toList =
        ExceptionKind.permanentError ∧
    map_exception (-2011) "Unknown order sent.".toList ≠
        ExceptionKind.invalidOrderError := by
  constructor <;> decide

/-- C3 (amended): `-2011` maps to the Permanent kind (unless the message
mentions insufficient balance); the case-insensitive "insufficient balance"
message override applies only after the rate-limit check (`-1003`) and the
invalid-order code tuple, so it overrides the transient/permanent/default
classification but not those two: a `-2010` rejection whose message mentions
insufficient balance still maps to `InvalidOrder`. -/
theorem map_exception_taxonomy :
    (∀ message : List Char,
      lowerContains message INSUFFICIENT_BALANCE_NEEDLE = false →
      map_exception (-2011) message = ExceptionKind.permanentError) ∧
    (∀ (error_code : Int) (message : List Char),
      lowerContains message INSUFFICIENT_BALANCE_NEEDLE = true →
      error_code ≠ -1003 →
      MAPPER_INVALID_ORDER_CODES.contains error_code = false →
      map_exception error_code message =
        ExceptionKind.insufficientBalanceError) ∧
    map_exception (-2010)
        "Account has insufficient balance for requested action.".toList =
      ExceptionKind.invalidOrderError := by
  refine ⟨?_, ?_, ?_⟩
  · intro message h
    simp [map_exception, h, is_transient_error, is_permanent_error,
      BINANCE_TRANSIENT_ERRORS, BINANCE_PERMANENT_ERRORS,
      MAPPER_INVALID_ORDER_CODES]
  · intro error_code message h hcode hset
    have hset2 : error_code ∉ MAPPER_INVALID_ORDER_CODES := by
      simpa using hset
    simp [map_exception, h, hcode, hset2]
  · decide

/-- Witness for C3 (amended): a `-1100` invalid-parameter error whose message
mentions insufficient balance is overridden to `InsufficientBalance`. -/
theorem map_exception_taxonomy_witness :
    lowerContains "Account has Insufficient Balance.".toList
        INSUFFICIENT_BALANCE_NEEDLE = true ∧
    map_exception (-1100) "Account has Insufficient Balance.".toList =
      ExceptionKind.insufficientBalanceError :=
  ⟨by decide,
   map_exception_taxonomy.2.1 (-1100)
     "Account has Insufficient Balance.".toList (by decide) (by decide)
     (by decide)⟩

/-- `src/exchange/exchange_config.py`, `ExchangeType`. -/
inductive ExchangeType where
  | binance
  | bybit
  | okx
  | kraken
deriving DecidableEq, Repr

/-- The slice of `ExchangeConfig` used by the symbol codec: the separator.
The source stores it as a string; every configured separator is at most one
character (`""` for Binance and Bybit, `"-"` for OKX), modelled as
`Option Char`.  Endpoint, rate-limit and feature fields are carried by the
source config but unused by the codec. -/
structure ExchangeConfig where
  name : String
  symbol_separator : Option Char
deriving DecidableEq, Repr

/-- `BINANCE_CONFIG`: no separator. -/
def BINANCE_CONFIG : ExchangeConfig :=
  { name := "Binance", symbol_separator := none }

/-- `BYBIT_CONFIG`: no separator. -/
def BYBIT_CONFIG : ExchangeConfig :=
  { name := "Bybit", symbol_separator := none }

/-- `OKX_CONFIG`: separator `-`. -/
def OKX_CONFIG : ExchangeConfig :=
  { name := "OKX", symbol_separator := some '-' }

/-- `get_exchange_config`: `EXCHANGE_CONFIGS` holds Binance, Bybit and OKX;
Kraken is declared in `ExchangeType` but has no config, so the lookup raises
`ValueError`. -/
def get_exchange_config : ExchangeType → Option ExchangeConfig
  | .binance => some BINANCE_CONFIG
  | .bybit => some BYBIT_CONFIG
  | .okx => some OKX_CONFIG
  | .kraken => none

/-- Errors raised by the codec: `ValueError` (unsupported exchange, or tuple
unpacking of a split that does not yield exactly two parts) and
`NotImplementedError` (no-separator venue other than Binance). -/
inductive CodecError where
  | valueError
  | notImplementedError
deriving DecidableEq, Repr

/-- The quote-currency priority list of `_normalize_binance_symbol`. -/
def quote_currencies : List (List Char) :=
  ["USDT".toList, "BUSD".toList, "USDC".toList, "BTC".toList, "ETH".toList,
   "BNB".toList, "DAI".toList]

/-- `_normalize_binance_symbol`: split on the first known quote-currency
suffix; otherwise fall back to a length heuristic (last 4 characters if
longer than 6, else last 3). -/
def normalize_binance_symbol (symbol : List Char) : List Char :=
  match quote_currencies.find? (fun quote => quote.isSuffixOf symbol) with
  | some quote => symbol.take (symbol.length - quote.length) ++ '/' :: quote
  | none =>
    if 6 < symbol.length then
      symbol.take (symbol.length - 4) ++ '/' ::
        symbol.drop (symbol.length - 4)
    else
      symbol.take (symbol.length - 3) ++ '/' ::
        symbol.drop (symbol.length - 3)

/-- Python `string.replace(old, new)` for a one-character pattern. -/
def replaceChar (old new : Char) (s : List Char) : List Char :=
  s.map fun c => if c = old then new else c

/-- Python `string.split(sep)` for a one-character separator. -/
def splitOnChar (sep : Char) : List Char → List (List Char)
  | [] => [[]]
  | c :: rest =>
    if c = sep then [] :: splitOnChar sep rest
    else
      match splitOnChar sep rest with
      | [] => [[c]]
      | h :: t => (c :: h) :: t

/-- `""` or `"-"` as a character list. -/
def sepToList : Option Char → List Char
  | none => []
  | some c => [c]

/-- `normalize_symbol(symbol, exchange_type)`: venue form to `BASE/QUOTE`. -/
def normalize_symbol (symbol : List Char) (exchange_type : ExchangeType) :
    Except CodecError (List Char) :=
  match get_exchange_config exchange_type with
  | none => .error .valueError
  | some config =>
    match config.symbol_separator with
    | some sep => .ok (replaceChar sep '/' symbol)
    | none =>
      if exchange_type = .binance then
        .ok (normalize_binance_symbol symbol)
      else .error .notImplementedError

/-- `denormalize_symbol(symbol, exchange_type)`: `BASE/QUOTE` to venue
form; a symbol without `/` is passed through unchanged. -/
def denormalize_symbol (symbol : List Char) (exchange_type : ExchangeType) :
    Except CodecError (List Char) :=
  match get_exchange_config exchange_type with
  | none => .error .valueError
  | some config =>
    if '/' ∈ symbol then
      match splitOnChar '/' symbol with
      | [base, quote] =>
        .ok (base ++ sepToList config.symbol_separator ++ quote)
      | _ => .error .valueError
    else .ok symbol

/-- `normalize(denormalize(s, V), V)`, the round trip of property P6. -/
def round_trip (symbol : List Char) (exchange_type : ExchangeType) :
    Except CodecError (List Char) :=
  (denormalize_symbol symbol exchange_type).bind
    (fun v => normalize_symbol v exchange_type)

/-- Counterexample to C4 as stated: the canonical symbol `AB/CDEF` (quote not
in the known list) denormalizes on Binance to `ABCDEF`, which the length
fallback re-splits as `ABC/DEF`: the round trip is not the identity. -/
theorem symbol_round_trip_fails :
    round_trip "AB/CDEF".toList .binance = .ok "ABC/DEF".toList ∧
    "ABC/DEF".toList ≠ "AB/CDEF".toList := by
  exact ⟨rfl, by decide⟩

/-- Splitting a list free of the separator yields the single chunk. -/
theorem splitOnChar_of_not_mem (sep : Char) (l : List Char) (h : sep ∉ l) :
    splitOnChar sep l = [l] := by
  induction l with
  | nil => rfl
  | cons c rest ih =>
    have hc : ¬ c = sep := fun hc => h (hc ▸ List.mem_cons_self c rest)
    have hrest : sep ∉ rest := fun hm => h (List.mem_cons_of_mem _ hm)
    simp [splitOnChar, hc, ih hrest]

/-- Splitting `b ++ sep :: q` with `sep ∉ b` peels off `b`. -/
theorem splitOnChar_sep_append (sep : Char) (b q : List Char)
    (hb : sep ∉ b) :
    splitOnChar sep (b ++ sep :: q) = b :: splitOnChar sep q := by
  induction b with
  | nil => simp [splitOnChar]
  | cons c rest ih =>
    have hc : ¬ c = sep := fun hc => hb (hc ▸ List.mem_cons_self c rest)
    have hrest : sep ∉ rest := fun hm => hb (List.mem_cons_of_mem _ hm)
    simp [splitOnChar, hc, ih hrest]

/-- Replacing a character that does not occur is the identity. -/
theorem replaceChar_not_mem (old new : Char) (l : List Char)
    (h : old ∉ l) : replaceChar old new l = l := by
  induction l with
  | nil => rfl
  | cons c rest ih =>
    have hc : ¬ c = old := fun hc => h (hc ▸ List.mem_cons_self c rest)
    have hrest : old ∉ rest := fun hm => h (List.mem_cons_of_mem _ hm)
    simp [replaceChar, hc]
    simpa [replaceChar] using ih hrest

/-- Replacement rewrites exactly the separator occurrence between two clean
chunks. -/
theorem replaceChar_append_sep (old new : Char) (b q : List Char)
    (hb : old ∉ b) (hq : old ∉ q) :
    replaceChar old new (b ++ old :: q) = b ++ new :: q := by
  have h1 := replaceChar_not_mem old new b hb
  have h2 := replaceChar_not_mem old new q hq
  simp only [replaceChar, List.map_append, List.map_cons, if_pos] at h1 h2 ⊢
  rw [h1, h2]

/-- `find?` returns the unique element satisfying the predicate. -/
theorem find?_eq_some_of_unique {α : Type} (l : List α) (p : α → Bool)
    (a : α) (hmem : a ∈ l) (hp : p a = true)
    (huniq : ∀ x ∈ l, p x = true → x = a) :
    l.find? p = some a := by
  induction l with
  | nil => cases hmem
  | cons x rest ih =>
    by_cases hx : p x = true
    · have hxa : x = a := huniq x (List.mem_cons_self _ _) hx
      rw [List.find?_cons_of_pos _ hx, hxa]
    · have hmem' : a ∈ rest := by
        rcases List.mem_cons.mp hmem with h | h
        · exact absurd (h ▸ hp) hx
        · exact h
      rw [List.find?_cons_of_neg _ hx]
      exact ih hmem' (fun y hy hpy => huniq y (List.mem_cons_of_mem _ hy) hpy)

/-- No known quote currency is a proper suffix of another, so the
first-match priority scan coincides with longest-suffix-wins. -/
theorem quote_suffix_unique :
    ∀ p ∈ quote_currencies, ∀ q ∈ quote_currencies, p <:+ q → p = q := by
  decide

/-- C4 (amended): the round trip `normalize(denormalize(s, V), V) = s` holds
for Binance whenever `s = BASE/QUOTE` with `/`-free base and the quote one of
the seven known quote assets, and for OKX whenever base and quote are free of
`/` and of the `-` separator; the priority list has no element a suffix of
another, so the first matching suffix is the longest; Bybit (a no-separator
venue other than Binance) is not round-trippable because its normalization
raises `NotImplementedError`. -/
theorem symbol_round_trip_amended :
    (∀ base quote : List Char, '/' ∉ base → quote ∈ quote_currencies →
      round_trip (base ++ '/' :: quote) .binance =
        .ok (base ++ '/' :: quote)) ∧
    (∀ base quote : List Char, '/' ∉ base → '/' ∉ quote →
      '-' ∉ base → '-' ∉ quote →
      round_trip (base ++ '/' :: quote) .okx =
        .ok (base ++ '/' :: quote)) ∧
    (∀ p ∈ quote_currencies, ∀ q ∈ quote_currencies, p <:+ q → p = q) ∧
    normalize_symbol "BTCUSDT".toList .bybit = .error .notImplementedError := by
  refine ⟨?_, ?_, quote_suffix_unique, rfl⟩
  · intro base quote hb hqmem
    have hqs : '/' ∉ quote :=
      (by decide : ∀ q ∈ quote_currencies, '/' ∉ q) quote hqmem
    have hden : denormalize_symbol (base ++ '/' :: quote) .binance =
        .ok (base ++ quote) := by
      simp [denormalize_symbol, get_exchange_config, BINANCE_CONFIG,
        splitOnChar_sep_append '/' base quote hb,
        splitOnChar_of_not_mem '/' quote hqs, sepToList]
    have hfind : quote_currencies.find?
        (fun q => q.isSuffixOf (base ++ quote)) = some quote := by
      apply find?_eq_some_of_unique _ _ _ hqmem
      · exact List.isSuffixOf_iff_suffix.mpr (List.suffix_append base quote)
      · intro x hx hpx
        have hxs : x <:+ base ++ quote := List.isSuffixOf_iff_suffix.mp hpx
        have hqsuf : quote <:+ base ++ quote := List.suffix_append base quote
        rcases List.suffix_or_suffix_of_suffix hxs hqsuf with h | h
        · exact quote_suffix_unique x hx quote hqmem h
        · exact (quote_suffix_unique quote hqmem x hx h).symm
    have hnorm : normalize_symbol (base ++ quote) .binance =
        .ok (base ++ '/' :: quote) := by
      have hlen : (base ++ quote).length - quote.length = base.length := by
        simp [List.length_append]
      simp [normalize_symbol, get_exchange_config, BINANCE_CONFIG,
        normalize_binance_symbol, hfind, hlen, List.take_left]
    simp [round_trip, hden, hnorm, Except.bind]
  · intro base quote hb hq hbd hqd
    have hden : denormalize_symbol (base ++ '/' :: quote) .okx =
        .ok (base ++ '-' :: quote) := by
      simp [denormalize_symbol, get_exchange_config, OKX_CONFIG,
        splitOnChar_sep_append '/' base quote hb,
        splitOnChar_of_not_mem '/' quote hq, sepToList]
    have hnorm : normalize_symbol (base ++ '-' :: quote) .okx =
        .ok (base ++ '/' :: quote) := by
      simp [normalize_symbol, get_exchange_config, OKX_CONFIG,
        replaceChar_append_sep '-' '/' base quote hbd hqd]
    simp [round_trip, hden, hnorm, Except.bind]

/-- Witness for C4 (amended): `BTC/USDT` survives the Binance round trip. -/
theorem symbol_round_trip_amended_witness :
    '/' ∉ "BTC".toList ∧ "USDT".toList ∈ quote_currencies ∧
    round_trip ("BTC".toList ++ '/' :: "USDT".toList) .binance =
      .ok ("BTC".toList ++ '/' :: "USDT".toList) :=
  ⟨by decide, by decide,
   symbol_round_trip_amended.1 "BTC".toList "USDT".toList (by decide)
     (by decide)⟩

/-- `src/exchange/models.py`, `Candle`: the normalized OHLCV candle.  `open`
is a Lean keyword, so the `open` field is called `open_price`; the datetime
fields are millisecond instants. -/
structure Candle where
  symbol : List Char
  interval : List Char
  open_time : Int
  close_time : Int
  open_price : ℚ
  high : ℚ
  low : ℚ
  close : ℚ
  volume : ℚ
deriving DecidableEq, Repr

/-- A well-formed kline frame as handled by `WebSocketParser.parse_kline`:
`data['s']`, and the `k` payload's interval `i`, times `t`/`T`, prices
`o`/`h`/`l`/`c`, volume `v` and the closed flag `x`. -/
structure KlineData where
  symbol : List Char
  interval : List Char
  start_time : Int
  close_time : Int
  open_price : ℚ
  high_price : ℚ
  low_price : ℚ
  close_price : ℚ
  volume : ℚ
  is_closed : Bool
deriving DecidableEq, Repr

/-- `WebSocketParser.parse_kline`: emits a `Candle` only for a closed candle;
open candles yield `None`.  A `ValueError` escaping `normalize_symbol` is
caught and logged (`None`); for the Binance exchange type normalization never
fails. -/
def parse_kline (exchange_type : ExchangeType) (data : KlineData) :
    Option Candle :=
  if ¬ data.is_closed then none
  else
    match normalize_symbol data.symbol exchange_type with
    | .error _ => none
    | .ok symbol =>
      some { symbol := symbol, interval := data.interval,
             open_time := data.start_time, close_time := data.close_time,
             open_price := data.open_price, high := data.high_price,
             low := data.low_price, close := data.close_price,
             volume := data.volume }

/-- The kline path of `WebSocketManager._handle_market_message`: look up the
stream's callback in the subscription registry (modelled by the list of
subscribed stream names), dispatch on `'@kline_' in stream_name`, parse, and
invoke the callback only when parsing produced a value.  The returned
`Option Candle` is the callback invocation (with its typed argument), `none`
meaning the callback is not invoked for this frame. -/
def handle_market_kline_message (subscriptions : List (List Char))
    (exchange_type : ExchangeType) (stream_name : List Char)
    (data : KlineData) : Option Candle :=
  if subscriptions.contains stream_name then
    if listContainsSub "@kline_".toList stream_name then
      parse_kline exchange_type data
    else none
  else none

/-- C5: over any sequence of well-formed kline frames delivered for a
subscribed kline stream, the subscriber callback is invoked exactly once per
frame with `is_closed = true`, each time with a typed `Candle`; frames with
`is_closed = false` produce no invocation. -/
theorem closed_candle_filter (subscriptions : List (List Char))
    (stream_name : List Char) (frames : List KlineData)
    (hsub : subscriptions.contains stream_name = true)
    (hname : listContainsSub "@kline_".toList stream_name = true) :
    (frames.filterMap
        (handle_market_kline_message subscriptions .binance stream_name)).length
      = frames.countP (·.is_closed) ∧
    ∀ d ∈ frames, d.is_closed = false →
      handle_market_kline_message subscriptions .binance stream_name d =
        none := by
  have hsub2 : stream_name ∈ subscriptions := by simpa using hsub
  have hname2 := hname
  simp at hname2
  constructor
  · induction frames with
    | nil => rfl
    | cons d rest ih =>
      by_cases hd : d.is_closed <;>
        simp [handle_market_kline_message, hsub2, hname2, parse_kline, hd,
          List.countP_cons, List.filterMap_cons, normalize_symbol,
          get_exchange_config, BINANCE_CONFIG, ih]
  · intro d _ hclosed
    simp [handle_market_kline_message, hsub2, hname2, parse_kline, hclosed]

/-- A closed 1-minute kline frame (from the S4 scenario shape). -/
def sampleKlineClosed : KlineData :=
  { symbol := "BTCUSDT".toList, interval := "1m".toList,
    start_time := 1640000000000, close_time := 1640000059999,
    open_price := 100, high_price := 102, low_price := 99,
    close_price := 101, volume := 5, is_closed := true }

/-- The same frame while the candle is still open. -/
def sampleKlineOpen : KlineData :=
  { sampleKlineClosed with is_closed := false }

/-- Witness for C5: one open and one closed frame on a subscribed
`btcusdt@kline_1m` stream produce exactly one invocation. -/
theorem closed_candle_filter_witness :
    ["btcusdt@kline_1m".toList].contains "btcusdt@kline_1m".toList = true ∧
    listContainsSub "@kline_".toList "btcusdt@kline_1m".toList = true ∧
    (([sampleKlineOpen, sampleKlineClosed].filterMap
        (handle_market_kline_message ["btcusdt@kline_1m".toList] .binance
          "btcusdt@kline_1m".toList)).length =
      [sampleKlineOpen, sampleKlineClosed].countP (·.is_closed) ∧
     ∀ d ∈ [sampleKlineOpen, sampleKlineClosed], d.is_closed = false →
       handle_market_kline_message ["btcusdt@kline_1m".toList] .binance
         "btcusdt@kline_1m".toList d = none) :=
  ⟨by decide, by decide,
   closed_candle_filter ["btcusdt@kline_1m".toList]
     "btcusdt@kline_1m".toList [sampleKlineOpen, sampleKlineClosed]
     (by decide) (by decide)⟩

/-- One row of the venue's `futures_klines` response, fields `k[0]`–`k[8]`
as read by `get_ohlc_data`. -/
structure KlineRow where
  open_time : Int
  open_price : ℚ
  high : ℚ
  low : ℚ
  close : ℚ
  volume : ℚ
  close_time : Int
  quote_volume : ℚ
  trades : Int
deriving DecidableEq, Repr

/-- The field names of the `Candle` dataclass constructor
(src/exchange/models.py). -/
def candleFieldNames : List String :=
  ["symbol", "interval", "open_time", "close_time", "open", "high", "low",
   "close", "volume"]

/-- The keyword arguments `BinanceGateway.get_ohlc_data` passes to
`Candle(...)`. -/
def getOhlcCandleKwargs : List String :=
  ["symbol", "interval", "open_time", "close_time", "open", "high", "low",
   "close", "volume", "quote_volume", "trades"]

/-- A raised `TypeError` from dataclass construction (unexpected keyword
argument). -/
inductive PyError where
  | typeError (kwarg : String)
deriving DecidableEq, Repr

/-- The `Candle(...)` call in the `get_ohlc_data` loop: a Python dataclass
accepts only its declared fields as keywords, so the call raises `TypeError`
at the first keyword `Candle` does not declare. -/
def build_candle_from_kline (symbol interval : List Char) (k : KlineRow) :
    Except PyError Candle :=
  match getOhlcCandleKwargs.find?
      (fun kw => ¬ candleFieldNames.contains kw) with
  | some kw => .error (.typeError kw)
  | none =>
    .ok { symbol := symbol, interval := interval, open_time := k.open_time,
          close_time := k.close_time, open_price := k.open_price,
          high := k.high, low := k.low, close := k.close,
          volume := k.volume }

/-- `BinanceGateway.get_ohlc_data` after the venue call: builds one `Candle`
per returned kline row (`TypeError` is not caught by the
`except BinanceAPIException` handler and propagates). -/
def get_ohlc_data (symbol interval : List Char) (klines : List KlineRow) :
    Except PyError (List Candle) :=
  klines.mapM (build_candle_from_kline symbol interval)

/-- The kline row used by the repository's own unit test
`test_get_ohlc_data`. -/
def testKlineRow : KlineRow :=
  { open_time := 1640000000000, open_price := 50000, high := 51000,
    low := 49000, close := 50500, volume := 100.5,
    close_time := 1640003599999, quote_volume := 5050000, trades := 1000 }

/-- C7 (code bug): `models.Candle` declares no `quote_volume`/`trades`
fields, yet `get_ohlc_data` passes both keywords (and the repository's unit
test asserts `candles[0].trades == 1000`), so on any non-empty klines
response the call raises `TypeError` instead of returning candles; only the
empty response succeeds. -/
theorem get_ohlc_data_raises_type_error :
    get_ohlc_data "BTC/USDT".toList "1h".toList [testKlineRow] =
      .error (.typeError "quote_volume") ∧
    get_ohlc_data "BTC/USDT".toList "1h".toList [] = .ok [] :=
  ⟨rfl, rfl⟩

/-- Python truthiness of an optional string argument (`if not order_id`):
`None` and `""` are falsy. -/
def truthy : Option String → Bool
  | none => false
  | some s => s != ""

/-- Errors surfaced by the local part of `cancel_order` /
`get_order_status`. -/
inductive GatewayError where
  | connectionError (msg : String)
  | invalidOrderError (msg : String)
  | valueError
deriving DecidableEq, Repr

/-- The `params` dict sent to `futures_cancel_order` / `futures_get_order`. -/
structure VenueOrderQuery where
  symbol : List Char
  orderId : Option String
  origClientOrderId : Option String
deriving DecidableEq, Repr

/-- The shared local body of `BinanceGateway.cancel_order` and
`BinanceGateway.get_order_status` up to the venue call: the connection check,
the identifier check, symbol denormalization, and the parameter dict (the two
methods differ only in which venue endpoint receives the params and how the
response is parsed). -/
def order_identifier_request (connected : Bool) (symbol : List Char)
    (order_id client_order_id : Option String) :
    Except GatewayError VenueOrderQuery :=
  if ¬ connected then .error (.connectionError "Not connected to exchange")
  else if ¬ truthy order_id ∧ ¬ truthy client_order_id then
    .error (.invalidOrderError "Either order_id or client_order_id required")
  else
    match denormalize_symbol symbol .binance with
    | .error _ => .error .valueError
    | .ok binance_symbol =>
      .ok { symbol := binance_symbol,
            orderId := if truthy order_id then order_id else none,
            origClientOrderId :=
              if truthy order_id then none else client_order_id }

/-- C9: on a connected gateway, `cancel_order` (and likewise
`get_order_status`) raises `InvalidOrder` locally iff both `order_id` and
`client_order_id` are absent (falsy); when both are supplied the call does
not fail on that account, `order_id` takes precedence, and
`client_order_id` is omitted from the venue request. -/
theorem cancel_order_requires_identifier (symbol : List Char)
    (order_id client_order_id : Option String) :
    (order_identifier_request true symbol order_id client_order_id =
        .error (.invalidOrderError
          "Either order_id or client_order_id required") ↔
      truthy order_id = false ∧ truthy client_order_id = false) ∧
    (truthy order_id = true → truthy client_order_id = true →
      order_identifier_request true symbol order_id client_order_id ≠
          .error (.invalidOrderError
            "Either order_id or client_order_id required") ∧
      ∀ q, order_identifier_request true symbol order_id client_order_id =
          .ok q →
        q.orderId = order_id ∧ q.origClientOrderId = none) := by
  rcases hden : denormalize_symbol symbol .binance with e | b <;>
    by_cases h1 : truthy order_id <;>
    by_cases h2 : truthy client_order_id <;>
      simp [order_identifier_request, h1, h2, hden]

/-- Witness for C9: with both identifiers present the request is built from
`order_id` alone. -/
theorem cancel_order_requires_identifier_witness :
    truthy (some "123") = true ∧ truthy (some "abc") = true ∧
    (order_identifier_request true "BTC/USDT".toList (some "123")
          (some "abc") ≠
        .error (.invalidOrderError
          "Either order_id or client_order_id required") ∧
     ∀ q, order_identifier_request true "BTC/USDT".toList (some "123")
           (some "abc") = .ok q →
       q.orderId = some "123" ∧ q.origClientOrderId = none) :=
  ⟨by decide, by decide,
   (cancel_order_requires_identifier "BTC/USDT".toList (some "123")
      (some "abc")).2 (by decide) (by decide)⟩

/-- The report dict built by `OrderTracker.reconcile_orders`. -/
structure ReconcileReport where
  total_exchange_orders : ℕ
  total_local_orders : ℕ
  missing_locally : ℕ
  missing_on_exchange : ℕ
  common_orders : ℕ
  updates_applied : ℕ
deriving DecidableEq, Repr

/-- The stray loop of `reconcile_orders`: `add_order` each venue order whose
id the local open set lacks; `ValueError` from `add_order` propagates. -/
def addStrays (st : OMSState) : List Order → Except OMSError OMSState
  | [] => .ok st
  | o :: rest =>
    match add_order st o with
    | .error e => .error e
    | .ok st' => addStrays st' rest

/-- The locally-present-but-venue-absent loop of `reconcile_orders`: for each
id, look the order up, query the venue for its authoritative record
(`query id = none` models a raised/failed REST query), and `update_order`;
both the query and the update run inside `try/except`, so failures are
logged and skipped.  Returns the state and the updates-applied counter. -/
def queryAbsentOrders (query : String → Option Order) :
    OMSState → ℕ → List String → OMSState × ℕ
  | st, applied, [] => (st, applied)
  | st, applied, order_id :: rest =>
    match get_order st order_id with
    | none => queryAbsentOrders query st applied rest
    | some _ =>
      match query order_id with
      | none => queryAbsentOrders query st applied rest
      | some order_status =>
        match update_order st order_status with
        | .ok st' => queryAbsentOrders query st' (applied + 1) rest
        | .error _ => queryAbsentOrders query st applied rest

/-- The common-id loop of `reconcile_orders`: if the statuses differ,
overwrite local with the venue record.  `update_order` here is *not* wrapped
in `try/except`: an `InvalidTransitionError` propagates. -/
def updateCommonOrders (exchange_orders : List Order) :
    OMSState → ℕ → List String → Except OMSError (OMSState × ℕ)
  | st, applied, [] => .ok (st, applied)
  | st, applied, order_id :: rest =>
    match exchange_orders.find? (fun o => o.order_id == order_id) with
    | none => updateCommonOrders exchange_orders st applied rest
    | some exchange_order =>
      match get_order st order_id with
      | none => updateCommonOrders exchange_orders st applied rest
      | some local_order =>
        if local_order.status ≠ exchange_order.status then
          match update_order st exchange_order with
          | .ok st' =>
            updateCommonOrders exchange_orders st' (applied + 1) rest
          | .error e => .error e
        else updateCommonOrders exchange_orders st applied rest

/-- `OrderTracker.reconcile_orders(symbol)` (src/oms/order_tracker.py).
`exchange_orders` is the venue's answer to `gateway.get_open_orders(symbol)`
and `query id` the venue's answer to `gateway.get_order_status(_, id)`
(`none` for a raised error).  Python set iteration order is unspecified; the
model iterates the id sets in stable list order, which is irrelevant to the
counts.  Returns the mutated registry state and the report. -/
def reconcile_orders (st : OMSState) (symbol : Option String)
    (exchange_orders : List Order) (query : String → Option Order) :
    Except OMSError (OMSState × ReconcileReport) :=
  let local_orders := get_open_orders st symbol
  let exchange_order_ids := exchange_orders.map (·.order_id)
  let local_order_ids := local_orders.map (·.order_id)
  let missing_locally :=
    exchange_order_ids.filter (fun id => ¬ local_order_ids.contains id)
  let missing_on_exchange :=
    local_order_ids.filter (fun id => ¬ exchange_order_ids.contains id)
  let common_orders :=
    exchange_order_ids.filter (fun id => local_order_ids.contains id)
  let strays :=
    exchange_orders.filter (fun o => ¬ local_order_ids.contains o.order_id)
  match addStrays st strays with
  | .error e => .error e
  | .ok st1 =>
    let r2 := queryAbsentOrders query st1 missing_locally.length
      missing_on_exchange
    match updateCommonOrders exchange_orders r2.1 r2.2 common_orders with
    | .error e => .error e
    | .ok r3 =>
      .ok (r3.1,
        { total_exchange_orders := exchange_orders.length,
          total_local_orders := local_orders.length,
          missing_locally := missing_locally.length,
          missing_on_exchange := missing_on_exchange.length,
          common_orders := common_orders.length,
          updates_applied := r3.2 })

/-- Registry well-formedness: distinct keys, and every entry stores an order
whose `order_id` is its key.  It holds for a fresh `OrderManager` and, as
proved below, is preserved by the registry operations. -/
def OMSState.wf (st : OMSState) : Prop :=
  (st.orders.map Prod.fst).Nodup ∧ ∀ kv ∈ st.orders, kv.2.order_id = kv.1

/-- A successful `dictGet` exhibits a list entry. -/
theorem dictGet_eq_some_mem {α : Type} {l : List (String × α)} {k : String}
    {v : α} (h : dictGet l k = some v) : (k, v) ∈ l := by
  induction l with
  | nil => cases h
  | cons kv rest ih =>
    by_cases hk : kv.1 = k
    · rw [dictGet, if_pos hk] at h
      have : kv = (k, v) := by
        rcases kv with ⟨k1, v1⟩
        simp only at hk
        injection h with h2
        change v1 = v at h2
        rw [hk, h2]
      rw [← this]
      exact List.mem_cons_self _ _
    · rw [dictGet, if_neg hk] at h
      exact List.mem_cons_of_mem _ (ih h)

/-- `dictGet` misses exactly when no entry has the key. -/
theorem dictGet_eq_none_iff {α : Type} {l : List (String × α)} {k : String} :
    dictGet l k = none ↔ ∀ kv ∈ l, kv.1 ≠ k := by
  induction l with
  | nil => simp [dictGet]
  | cons kv rest ih =>
    by_cases hk : kv.1 = k <;> simp [dictGet, hk, ih]

/-- With distinct keys, membership determines the lookup. -/
theorem dictGet_of_mem_nodup {α : Type} {l : List (String × α)}
    (hnd : (l.map Prod.fst).Nodup) {k : String} {v : α}
    (hmem : (k, v) ∈ l) : dictGet l k = some v := by
  induction l with
  | nil => cases hmem
  | cons kv rest ih =>
    rw [List.map_cons, List.nodup_cons] at hnd
    rcases List.mem_cons.mp hmem with h | h
    · rw [← h]
      simp [dictGet]
    · have hkmem : k ∈ rest.map Prod.fst := by
        have := List.mem_map_of_mem Prod.fst h
        simpa using this
      have hk : ¬ kv.1 = k := fun he => hnd.1 (he ▸ hkmem)
      rw [dictGet, if_neg hk]
      exact ih hnd.2 h

/-- Lookup after appending one fresh entry. -/
theorem dictGet_append_single {α : Type} (l : List (String × α))
    (k id : String) (v : α) :
    dictGet (l ++ [(k, v)]) id =
      match dictGet l id with
      | some w => some w
      | none => if id = k then some v else none := by
  induction l with
  | nil =>
    by_cases h : id = k
    · simp [dictGet, h]
    · have h2 : ¬ k = id := fun he => h he.symm
      simp [dictGet, h, h2]
  | cons kv rest ih =>
    by_cases h : kv.1 = id <;> simp [dictGet, h, ih]

/-- Lookup after the overwrite-in-place branch of `dictSet`. -/
theorem dictGet_map_set {α : Type} (l : List (String × α)) (k id : String)
    (v : α) :
    dictGet (l.map (fun kv => if kv.1 = k then (k, v) else kv)) id =
      if id = k then (dictGet l k).map (fun _ => v) else dictGet l id := by
  induction l with
  | nil => by_cases h : id = k <;> simp [dictGet, h]
  | cons kv rest ih =>
    by_cases hk : kv.1 = k <;> by_cases hid : kv.1 = id
    · have he : id = k := by rw [← hid, ← hk]
      subst he
      simp [dictGet, hk, ih]
    · have hne : ¬ id = k := fun he => hid (he ▸ hk)
      have h3 : ¬ k = id := fun he => hne he.symm
      simp [dictGet, hk, hid, hne, h3, ih]
    · subst hid
      simp [dictGet, hk, ih]
    · by_cases hidk : id = k
      · subst hidk
        simp [dictGet, hk, hid, ih]
      · simp [dictGet, hk, hid, hidk, ih]

/-- Lookup after `dictSet`. -/
theorem dictGet_dictSet {α : Type} (l : List (String × α)) (k id : String)
    (v : α) :
    dictGet (dictSet l k v) id = if id = k then some v else dictGet l id := by
  unfold dictSet
  by_cases hany : l.any (fun kv => kv.1 == k)
  · rw [if_pos hany, dictGet_map_set]
    rcases List.any_eq_true.mp hany with ⟨kv, hkv, hbeq⟩
    rcases hlook : dictGet l k with _ | w
    · exfalso
      exact (dictGet_eq_none_iff.mp hlook) kv hkv (by simpa using hbeq)
    · simp
  · rw [if_neg hany, dictGet_append_single]
    have hnone : dictGet l k = none := by
      rw [dictGet_eq_none_iff]
      intro kv hkv he
      exact hany (List.any_eq_true.mpr ⟨kv, hkv, by simpa using he⟩)
    by_cases hid : id = k
    · subst hid
      rw [hnone]
    · rcases hlook : dictGet l id with _ | w <;> simp [hid]

/-- A present key makes `any` true. -/
theorem any_of_dictGet_some {α : Type} {l : List (String × α)} {k : String}
    {v : α} (h : dictGet l k = some v) :
    l.any (fun kv => kv.1 == k) = true :=
  List.any_eq_true.mpr ⟨(k, v), dictGet_eq_some_mem h, by simp⟩

/-- Overwriting an existing key leaves the key list unchanged. -/
theorem dictSet_keys_of_present {α : Type} (l : List (String × α))
    (k : String) (v : α) (hpresent : l.any (fun kv => kv.1 == k) = true) :
    (dictSet l k v).map Prod.fst = l.map Prod.fst := by
  unfold dictSet
  rw [if_pos hpresent, List.map_map]
  apply List.map_congr_left
  intro kv _
  by_cases hk : kv.1 = k <;> simp [hk, Function.comp]

/-- Successful `add_order` elimination: the id was fresh and the new state is
the three-field extension. -/
theorem add_order_ok_elim {st st' : OMSState} {o : Order}
    (h : add_order st o = .ok st') :
    dictGet st.orders o.order_id = none ∧
    st' = { orders := st.orders ++ [(o.order_id, o)],
            orders_by_client_id :=
              dictSet st.orders_by_client_id o.client_order_id o.order_id,
            callback_log := st.callback_log ++ [o] } := by
  unfold add_order add_order_run at h
  by_cases hdup : (dictGet st.orders o.order_id).isSome
  · rw [if_pos hdup] at h
    simp at h
  · rw [if_neg hdup] at h
    simp at h
    refine ⟨?_, h.symm⟩
    rcases hl : dictGet st.orders o.order_id with _ | w
    · rfl
    · rw [hl] at hdup
      simp at hdup

/-- Lookup in the state a successful `add_order` leaves behind. -/
theorem add_order_ok_lookup {st st' : OMSState} {o : Order}
    (h : add_order st o = .ok st') (id : String) :
    dictGet st'.orders id =
      if id = o.order_id then some o else dictGet st.orders id := by
  obtain ⟨hnone, rfl⟩ := add_order_ok_elim h
  show dictGet (st.orders ++ [(o.order_id, o)]) id = _
  rw [dictGet_append_single]
  by_cases hid : id = o.order_id
  · subst hid
    rw [hnone]
  · rcases hl : dictGet st.orders id with _ | w <;> simp [hid]

/-- `add_order` preserves registry well-formedness. -/
theorem add_order_ok_wf {st st' : OMSState} {o : Order} (hwf : st.wf)
    (h : add_order st o = .ok st') : st'.wf := by
  obtain ⟨hnone, rfl⟩ := add_order_ok_elim h
  constructor
  · show ((st.orders ++ [(o.order_id, o)]).map Prod.fst).Nodup
    rw [List.map_append]
    rw [List.nodup_append]
    refine ⟨hwf.1, by simp, ?_⟩
    intro a ha hb
    simp at hb
    subst hb
    rcases List.mem_map.mp ha with ⟨kv, hkv, hfst⟩
    exact (dictGet_eq_none_iff.mp hnone) kv hkv hfst
  · intro kv hkv
    rcases List.mem_append.mp hkv with h1 | h1
    · exact hwf.2 kv h1
    · simp at h1
      rw [h1]

/-- Complete case split for `update_order` on a known id. -/
theorem update_order_known_cases {st : OMSState} {u ex : Order}
    (hlook : dictGet st.orders u.order_id = some ex) :
    (ex.status ≠ u.status ∧ can_transition ex.status u.status = false ∧
      update_order st u =
        .error (.invalidTransition ex.status u.status)) ∨
    ((ex.status = u.status ∨ can_transition ex.status u.status = true) ∧
      update_order st u =
        .ok { orders := dictSet st.orders u.order_id u,
              orders_by_client_id := st.orders_by_client_id,
              callback_log := st.callback_log ++ [u] }) := by
  have hbody : update_order st u =
      if ex.status ≠ u.status ∧ ¬ can_transition ex.status u.status then
        .error (.invalidTransition ex.status u.status)
      else .ok { orders := dictSet st.orders u.order_id u,
                 orders_by_client_id := st.orders_by_client_id,
                 callback_log := st.callback_log ++ [u] } := by
    unfold update_order
    rw [hlook]
  by_cases hcond : ex.status ≠ u.status ∧
      ¬ can_transition ex.status u.status
  · left
    refine ⟨hcond.1, by simpa using hcond.2, ?_⟩
    rw [hbody, if_pos hcond]
  · right
    refine ⟨?_, by rw [hbody, if_neg hcond]⟩
    by_cases hst : ex.status = u.status
    · exact Or.inl hst
    · right
      by_contra hc
      exact hcond ⟨hst, by simpa using hc⟩

/-- Lookup in the state a successful `update_order` leaves behind (both the
known-id and the delegate-to-add branches replace/insert at the update's
id and touch nothing else). -/
theorem update_order_ok_lookup {st st' : OMSState} {u : Order}
    (h : update_order st u = .ok st') (id : String) :
    dictGet st'.orders id =
      if id = u.order_id then some u else dictGet st.orders id := by
  rcases hlook : dictGet st.orders u.order_id with _ | ex
  · simp only [update_order, hlook] at h
    exact add_order_ok_lookup h id
  · simp only [update_order, hlook] at h
    by_cases hcond : ex.status ≠ u.status ∧
        ¬ can_transition ex.status u.status
    · rw [if_pos hcond] at h
      cases h
    · rw [if_neg hcond] at h
      simp at h
      rw [← h]
      show dictGet (dictSet st.orders u.order_id u) id = _
      exact dictGet_dictSet st.orders u.order_id id u

/-- `update_order` preserves registry well-formedness. -/
theorem update_order_ok_wf {st st' : OMSState} {u : Order} (hwf : st.wf)
    (h : update_order st u = .ok st') : st'.wf := by
  rcases hlook : dictGet st.orders u.order_id with _ | ex
  · simp only [update_order, hlook] at h
    exact add_order_ok_wf hwf h
  · simp only [update_order, hlook] at h
    by_cases hcond : ex.status ≠ u.status ∧
        ¬ can_transition ex.status u.status
    · rw [if_pos hcond] at h
      cases h
    · rw [if_neg hcond] at h
      simp at h
      rw [← h]
      constructor
      · show ((dictSet st.orders u.order_id u).map Prod.fst).Nodup
        rw [dictSet_keys_of_present _ _ _ (any_of_dictGet_some hlook)]
        exact hwf.1
      · intro kv hkv
        have hkv2 : kv ∈ st.orders.map
            (fun kv => if kv.1 = u.order_id then (u.order_id, u) else kv) := by
          have hkv3 : kv ∈ dictSet st.orders u.order_id u := hkv
          unfold dictSet at hkv3
          rw [if_pos (any_of_dictGet_some hlook)] at hkv3
          exact hkv3
        rcases List.mem_map.mp hkv2 with ⟨kv0, hkv0, hf⟩
        by_cases hk : kv0.1 = u.order_id
        · rw [if_pos hk] at hf
          rw [← hf]
        · rw [if_neg hk] at hf
          rw [← hf]
          exact hwf.2 kv0 hkv0

/-- The open-order ids are a sublist of the registry keys. -/
theorem open_ids_sublist_keys (l : List (String × Order))
    (symbol : Option String) (hinv : ∀ kv ∈ l, kv.2.order_id = kv.1) :
    ((l.filterMap fun kv =>
        if is_active_state kv.2.status && matches_symbol symbol kv.2 then
          some kv.2
        else none).map (·.order_id)).Sublist (l.map Prod.fst) := by
  induction l with
  | nil => simp
  | cons kv rest ih =>
    have ih2 := ih (fun kv2 h2 => hinv kv2 (List.mem_cons_of_mem _ h2))
    by_cases hc : is_active_state kv.2.status && matches_symbol symbol kv.2
    · have hfa : (fun p : String × Order =>
          if is_active_state p.2.status && matches_symbol symbol p.2 then
            some p.2 else none) kv = some kv.2 := if_pos hc
      rw [@List.filterMap_cons_some (String × Order) Order
        (fun p => if is_active_state p.2.status &&
          matches_symbol symbol p.2 then some p.2 else none) kv rest kv.2 hfa,
        List.map_cons, hinv kv (List.mem_cons_self _ _)]
      exact ih2.cons₂ kv.1
    · have hfa : (fun p : String × Order =>
          if is_active_state p.2.status && matches_symbol symbol p.2 then
            some p.2 else none) kv = (none : Option Order) := if_neg hc
      rw [@List.filterMap_cons_none (String × Order) Order
        (fun p => if is_active_state p.2.status &&
          matches_symbol symbol p.2 then some p.2 else none) kv rest hfa,
        List.map_cons]
      exact ih2.cons kv.1

/-- In a well-formed registry the open-order ids are distinct. -/
theorem open_ids_nodup {st : OMSState} (hwf : st.wf)
    (symbol : Option String) :
    ((get_open_orders st symbol).map (·.order_id)).Nodup :=
  hwf.1.sublist (open_ids_sublist_keys st.orders symbol hwf.2)

/-- Characterization of open-order-id membership in a well-formed
registry. -/
theorem mem_open_ids_iff {st : OMSState} (hwf : st.wf)
    (symbol : Option String) (id : String) :
    id ∈ (get_open_orders st symbol).map (·.order_id) ↔
      ∃ o, dictGet st.orders id = some o ∧ is_active_state o.status = true ∧
        matches_symbol symbol o = true := by
  constructor
  · intro h
    rcases List.mem_map.mp h with ⟨o, ho, hid⟩
    rcases List.mem_filterMap.mp ho with ⟨kv, hkv, hf⟩
    by_cases hc : is_active_state kv.2.status && matches_symbol symbol kv.2
    · rw [if_pos hc] at hf
      injection hf with hf2
      have hkey : kv.1 = id := by
        rw [← hid, ← hf2]
        exact (hwf.2 kv hkv).symm
      refine ⟨o, ?_, ?_, ?_⟩
      · have : (id, o) ∈ st.orders := by
          have : kv = (id, o) := by
            rcases kv with ⟨k1, v1⟩
            simp only at hkey hf2
            rw [hkey, hf2]
          rw [← this]
          exact hkv
        exact dictGet_of_mem_nodup hwf.1 this
      · have hc2 : is_active_state kv.2.status = true ∧
            matches_symbol symbol kv.2 = true := by simpa using hc
        rw [← hf2]
        exact hc2.1
      · have hc2 : is_active_state kv.2.status = true ∧
            matches_symbol symbol kv.2 = true := by simpa using hc
        rw [← hf2]
        exact hc2.2
    · rw [if_neg hc] at hf
      cases hf
  · rintro ⟨o, hlook, hact, hmat⟩
    have hmem := dictGet_eq_some_mem hlook
    have hid : o.order_id = id := hwf.2 (id, o) hmem
    apply List.mem_map.mpr
    refine ⟨o, ?_, hid⟩
    apply List.mem_filterMap.mpr
    exact ⟨(id, o), hmem, by simp [hact, hmat]⟩

/-- Ids not touched by the stray loop keep their lookup. -/
theorem addStrays_ok_untouched {st st' : OMSState} {os : List Order}
    (h : addStrays st os = .ok st') (id : String)
    (hid : ∀ o ∈ os, o.order_id ≠ id) :
    dictGet st'.orders id = dictGet st.orders id := by
  induction os generalizing st with
  | nil =>
    cases h
    rfl
  | cons o rest ih =>
    unfold addStrays at h
    rcases hadd : add_order st o with e | st1 <;> rw [hadd] at h
    · cases h
    · have h1 := add_order_ok_lookup hadd id
      rw [if_neg (fun he => hid o (List.mem_cons_self _ _) he.symm)] at h1
      rw [ih h (fun o2 h2 => hid o2 (List.mem_cons_of_mem _ h2)), h1]

/-- Every stray added by a successful stray loop is found afterwards. -/
theorem addStrays_ok_mem {st st' : OMSState} {os : List Order}
    (h : addStrays st os = .ok st')
    (hnd : (os.map (·.order_id)).Nodup) :
    ∀ o ∈ os, dictGet st'.orders o.order_id = some o := by
  induction os generalizing st with
  | nil => intro o ho; cases ho
  | cons o rest ih =>
    rw [List.map_cons, List.nodup_cons] at hnd
    unfold addStrays at h
    rcases hadd : add_order st o with e | st1 <;> rw [hadd] at h
    · cases h
    · intro o2 ho2
      rcases List.mem_cons.mp ho2 with h2 | h2
      · subst h2
        have huntouched := addStrays_ok_untouched h o2.order_id
          (fun o3 h3 he => hnd.1 (he ▸ List.mem_map_of_mem (·.order_id) h3))
        rw [huntouched]
        have h1 := add_order_ok_lookup hadd o2.order_id
        rw [if_pos rfl] at h1
        exact h1
      · exact ih h hnd.2 o2 h2

/-- The stray loop preserves well-formedness. -/
theorem addStrays_ok_wf {st st' : OMSState} {os : List Order} (hwf : st.wf)
    (h : addStrays st os = .ok st') : st'.wf := by
  induction os generalizing st with
  | nil =>
    cases h
    exact hwf
  | cons o rest ih =>
    unfold addStrays at h
    rcases hadd : add_order st o with e | st1 <;> rw [hadd] at h
    · cases h
    · exact ih (add_order_ok_wf hwf hadd) h

/-- Step equation: the queried id is not tracked. -/
theorem queryAbsentOrders_step_getNone (query : String → Option Order)
    (st : OMSState) (n : ℕ) (i : String) (rest : List String)
    (hget : get_order st i = none) :
    queryAbsentOrders query st n (i :: rest) =
      queryAbsentOrders query st n rest := by
  simp only [queryAbsentOrders, hget]

/-- Step equation: the venue status query failed (was caught and logged). -/
theorem queryAbsentOrders_step_queryNone (query : String → Option Order)
    (st : OMSState) (n : ℕ) (i : String) (rest : List String) (o : Order)
    (hget : get_order st i = some o) (hq : query i = none) :
    queryAbsentOrders query st n (i :: rest) =
      queryAbsentOrders query st n rest := by
  simp only [queryAbsentOrders, hget, hq]

/-- Step equation: the authoritative update applied. -/
theorem queryAbsentOrders_step_updateOk (query : String → Option Order)
    (st st' : OMSState) (n : ℕ) (i : String) (rest : List String)
    (o rec : Order) (hget : get_order st i = some o)
    (hq : query i = some rec) (hupd : update_order st rec = .ok st') :
    queryAbsentOrders query st n (i :: rest) =
      queryAbsentOrders query st' (n + 1) rest := by
  simp only [queryAbsentOrders, hget, hq, hupd]

/-- Step equation: the authoritative update raised (caught and logged). -/
theorem queryAbsentOrders_step_updateErr (query : String → Option Order)
    (st : OMSState) (n : ℕ) (i : String) (rest : List String)
    (o rec : Order) (e : OMSError) (hget : get_order st i = some o)
    (hq : query i = some rec) (hupd : update_order st rec = .error e) :
    queryAbsentOrders query st n (i :: rest) =
      queryAbsentOrders query st n rest := by
  simp only [queryAbsentOrders, hget, hq, hupd]

/-- Ids not in the processed list keep their lookup through the
locally-present-but-venue-absent loop (each update writes only at the
queried id, by the query-id hypothesis). -/
theorem queryAbsent_untouched (query : String → Option Order) (id : String) :
    ∀ ids : List String,
      (∀ i ∈ ids, ∀ rec, query i = some rec → rec.order_id = i) →
      id ∉ ids → ∀ (st : OMSState) (n : ℕ),
      dictGet (queryAbsentOrders query st n ids).1.orders id =
        dictGet st.orders id := by
  intro ids
  induction ids with
  | nil =>
    intro _ _ st n
    rfl
  | cons i rest ih =>
    intro hq hid st n
    have hq2 : ∀ i2 ∈ rest, ∀ rec, query i2 = some rec →
        rec.order_id = i2 :=
      fun i2 h2 => hq i2 (List.mem_cons_of_mem _ h2)
    have hid2 : id ∉ rest := fun h => hid (List.mem_cons_of_mem _ h)
    have hne : i ≠ id := fun he => hid (he ▸ List.mem_cons_self _ _)
    rcases hget : get_order st i with _ | o
    · rw [queryAbsentOrders_step_getNone query st n i rest hget]
      exact ih hq2 hid2 st n
    · rcases hqi : query i with _ | rec
      · rw [queryAbsentOrders_step_queryNone query st n i rest o hget hqi]
        exact ih hq2 hid2 st n
      · rcases hupd : update_order st rec with e | st1
        · rw [queryAbsentOrders_step_updateErr query st n i rest o rec e
            hget hqi hupd]
          exact ih hq2 hid2 st n
        · rw [queryAbsentOrders_step_updateOk query st st1 n i rest o rec
            hget hqi hupd]
          have hrec : rec.order_id = i := hq i (List.mem_cons_self _ _) rec hqi
          have hlookup := update_order_ok_lookup hupd id
          rw [if_neg (fun he => hne ((he.trans hrec).symm))] at hlookup
          rw [ih hq2 hid2 st1 (n + 1), hlookup]

/-- Precise final lookup at a processed id of the
locally-present-but-venue-absent loop. -/
theorem queryAbsent_lookup_char (query : String → Option Order) :
    ∀ ids : List String, ids.Nodup →
      (∀ i ∈ ids, ∀ rec, query i = some rec → rec.order_id = i) →
      ∀ (st : OMSState) (n : ℕ) (id : String), id ∈ ids →
      dictGet (queryAbsentOrders query st n ids).1.orders id =
        match dictGet st.orders id, query id with
        | none, _ => none
        | some lo, none => some lo
        | some lo, some rec =>
          if lo.status = rec.status ∨
              can_transition lo.status rec.status = true then some rec
          else some lo := by
  intro ids
  induction ids with
  | nil =>
    intro _ _ st n id hid
    cases hid
  | cons i rest ih =>
    intro hnd hq st n id hid
    rw [List.nodup_cons] at hnd
    have hq2 : ∀ i2 ∈ rest, ∀ rec, query i2 = some rec →
        rec.order_id = i2 :=
      fun i2 h2 => hq i2 (List.mem_cons_of_mem _ h2)
    rcases List.mem_cons.mp hid with hhead | htail
    · subst hhead
      rcases hget : get_order st id with _ | lo
      · rw [queryAbsentOrders_step_getNone query st n id rest hget]
        rw [queryAbsent_untouched query id rest hq2 hnd.1 st n]
        rw [show dictGet st.orders id = none from hget]
      · have hlo : dictGet st.orders id = some lo := hget
        rcases hqi : query id with _ | rec
        · rw [queryAbsentOrders_step_queryNone query st n id rest lo hget
            hqi]
          rw [queryAbsent_untouched query id rest hq2 hnd.1 st n, hlo]
        · have hrec : rec.order_id = id :=
            hq id (List.mem_cons_self _ _) rec hqi
          have hlook2 : dictGet st.orders rec.order_id = some lo := by
            rw [hrec]
            exact hlo
          rcases update_order_known_cases hlook2 with
            ⟨hst, hcan, herr⟩ | ⟨hok, heq⟩
          · rw [queryAbsentOrders_step_updateErr query st n id rest lo rec _
              hget hqi herr]
            rw [queryAbsent_untouched query id rest hq2 hnd.1 st n, hlo]
            show some lo = if lo.status = rec.status ∨
                can_transition lo.status rec.status = true then some rec
              else some lo
            rw [if_neg]
            intro hc
            rcases hc with hc | hc
            · exact hst hc
            · rw [hc] at hcan
              cases hcan
          · rw [queryAbsentOrders_step_updateOk query st _ n id rest lo rec
              hget hqi heq]
            rw [queryAbsent_untouched query id rest hq2 hnd.1 _ (n + 1)]
            have hlookup := update_order_ok_lookup heq id
            rw [if_pos hrec.symm] at hlookup
            rw [hlookup, hlo]
            show some rec = if lo.status = rec.status ∨
                can_transition lo.status rec.status = true then some rec
              else some lo
            rw [if_pos hok]
    · rcases hget : get_order st i with _ | o
      · rw [queryAbsentOrders_step_getNone query st n i rest hget]
        exact ih hnd.2 hq2 st n id htail
      · rcases hqi : query i with _ | rec
        · rw [queryAbsentOrders_step_queryNone query st n i rest o hget hqi]
          exact ih hnd.2 hq2 st n id htail
        · rcases hupd : update_order st rec with e | st1
          · rw [queryAbsentOrders_step_updateErr query st n i rest o rec e
              hget hqi hupd]
            exact ih hnd.2 hq2 st n id htail
          · rw [queryAbsentOrders_step_updateOk query st st1 n i rest o rec
              hget hqi hupd]
            have hrec : rec.order_id = i :=
              hq i (List.mem_cons_self _ _) rec hqi
            have hne : id ≠ i := fun he => hnd.1 (he ▸ htail)
            have hlookup := update_order_ok_lookup hupd id
            rw [if_neg (fun he => hne (he.trans hrec))] at hlookup
            rw [ih hnd.2 hq2 st1 (n + 1) id htail, hlookup]

/-- The locally-present-but-venue-absent loop preserves well-formedness. -/
theorem queryAbsent_wf (query : String → Option Order) :
    ∀ (ids : List String) (st : OMSState) (n : ℕ), st.wf →
      (queryAbsentOrders query st n ids).1.wf := by
  intro ids
  induction ids with
  | nil =>
    intro st n hwf
    exact hwf
  | cons i rest ih =>
    intro st n hwf
    rcases hget : get_order st i with _ | o
    · rw [queryAbsentOrders_step_getNone query st n i rest hget]
      exact ih st n hwf
    · rcases hqi : query i with _ | rec
      · rw [queryAbsentOrders_step_queryNone query st n i rest o hget hqi]
        exact ih st n hwf
      · rcases hupd : update_order st rec with e | st1
        · rw [queryAbsentOrders_step_updateErr query st n i rest o rec e
            hget hqi hupd]
          exact ih st n hwf
        · rw [queryAbsentOrders_step_updateOk query st st1 n i rest o rec
            hget hqi hupd]
          exact ih st1 (n + 1) (update_order_ok_wf hwf hupd)

/-- If every processed id fails (untracked, failed venue query, or
update rejected as an invalid transition), the
locally-present-but-venue-absent loop is a no-op. -/
theorem queryAbsent_noop (query : String → Option Order) (st : OMSState) :
    ∀ ids : List String,
      (∀ id ∈ ids, dictGet st.orders id = none ∨ query id = none ∨
        ∃ ex rec, dictGet st.orders id = some ex ∧ query id = some rec ∧
          rec.order_id = id ∧ ex.status ≠ rec.status ∧
          can_transition ex.status rec.status = false) →
      ∀ n : ℕ, queryAbsentOrders query st n ids = (st, n) := by
  intro ids
  induction ids with
  | nil =>
    intro _ n
    rfl
  | cons i rest ih =>
    intro h n
    have h2 := fun id hid => h id (List.mem_cons_of_mem _ hid)
    rcases h i (List.mem_cons_self _ _) with hnone | hqnone |
      ⟨ex, rec, hex, hqrec, hrid, hfst, hcan⟩
    · rw [queryAbsentOrders_step_getNone query st n i rest hnone]
      exact ih h2 n
    · rcases hget : get_order st i with _ | o
      · rw [queryAbsentOrders_step_getNone query st n i rest hget]
        exact ih h2 n
      · rw [queryAbsentOrders_step_queryNone query st n i rest o hget hqnone]
        exact ih h2 n
    · have hlook2 : dictGet st.orders rec.order_id = some ex := by
        rw [hrid]
        exact hex
      rcases update_order_known_cases hlook2 with
        ⟨_, _, herr⟩ | ⟨hok, _⟩
      · rw [queryAbsentOrders_step_updateErr query st n i rest ex rec _
          hex hqrec herr]
        exact ih h2 n
      · exfalso
        rcases hok with hok | hok
        · exact hfst hok
        · rw [hok] at hcan
          cases hcan

/-- Step equation for the common-id loop: no venue record has the id. -/
theorem updateCommonOrders_step_findNone (E : List Order) (st : OMSState)
    (n : ℕ) (i : String) (rest : List String)
    (hfind : E.find? (fun o => o.order_id == i) = none) :
    updateCommonOrders E st n (i :: rest) =
      updateCommonOrders E st n rest := by
  simp only [updateCommonOrders, hfind]

/-- Step equation for the common-id loop: the id is not tracked locally. -/
theorem updateCommonOrders_step_getNone (E : List Order) (st : OMSState)
    (n : ℕ) (i : String) (rest : List String) (eo : Order)
    (hfind : E.find? (fun o => o.order_id == i) = some eo)
    (hget : get_order st i = none) :
    updateCommonOrders E st n (i :: rest) =
      updateCommonOrders E st n rest := by
  simp only [updateCommonOrders, hfind, hget]

/-- Step equation for the common-id loop: the statuses agree, skip. -/
theorem updateCommonOrders_step_skipEq (E : List Order) (st : OMSState)
    (n : ℕ) (i : String) (rest : List String) (eo lo : Order)
    (hfind : E.find? (fun o => o.order_id == i) = some eo)
    (hget : get_order st i = some lo) (hstat : lo.status = eo.status) :
    updateCommonOrders E st n (i :: rest) =
      updateCommonOrders E st n rest := by
  simp only [updateCommonOrders, hfind, hget]
  rw [if_neg (fun hne => hne hstat)]

/-- Step equation for the common-id loop: the statuses differ and the
overwrite succeeds. -/
theorem updateCommonOrders_step_updateOk (E : List Order) (st st' : OMSState)
    (n : ℕ) (i : String) (rest : List String) (eo lo : Order)
    (hfind : E.find? (fun o => o.order_id == i) = some eo)
    (hget : get_order st i = some lo) (hstat : lo.status ≠ eo.status)
    (hupd : update_order st eo = .ok st') :
    updateCommonOrders E st n (i :: rest) =
      updateCommonOrders E st' (n + 1) rest := by
  simp only [updateCommonOrders, hfind, hget, hupd]
  rw [if_pos hstat]

/-- Step equation for the common-id loop: the statuses differ and the
overwrite raises; nothing catches it, so the loop aborts. -/
theorem updateCommonOrders_step_updateErr (E : List Order) (st : OMSState)
    (n : ℕ) (i : String) (rest : List String) (eo lo : Order) (e : OMSError)
    (hfind : E.find? (fun o => o.order_id == i) = some eo)
    (hget : get_order st i = some lo) (hstat : lo.status ≠ eo.status)
    (hupd : update_order st eo = .error e) :
    updateCommonOrders E st n (i :: rest) = .error e := by
  simp only [updateCommonOrders, hfind, hget, hupd]
  rw [if_pos hstat]

/-- Ids not in the processed list keep their lookup through a successful
common-id loop (each overwrite writes at the head id, since the venue
record was found by that id). -/
theorem updateCommon_untouched (E : List Order) (id : String) :
    ∀ ids : List String, id ∉ ids →
      ∀ (st : OMSState) (n : ℕ) (st' : OMSState) (n' : ℕ),
      updateCommonOrders E st n ids = .ok (st', n') →
      dictGet st'.orders id = dictGet st.orders id := by
  intro ids
  induction ids with
  | nil =>
    intro _ st n st' n' h
    cases h
    rfl
  | cons i rest ih =>
    intro hid st n st' n' h
    have hid2 : id ∉ rest := fun hh => hid (List.mem_cons_of_mem _ hh)
    have hne : i ≠ id := fun he => hid (he ▸ List.mem_cons_self _ _)
    rcases hfind : E.find? (fun o => o.order_id == i) with _ | eo
    · rw [updateCommonOrders_step_findNone E st n i rest hfind] at h
      exact ih hid2 st n st' n' h
    · rcases hget : get_order st i with _ | lo
      · rw [updateCommonOrders_step_getNone E st n i rest eo hfind hget] at h
        exact ih hid2 st n st' n' h
      · by_cases hstat : lo.status = eo.status
        · rw [updateCommonOrders_step_skipEq E st n i rest eo lo hfind hget
            hstat] at h
          exact ih hid2 st n st' n' h
        · rcases hupd : update_order st eo with e | st1
          · rw [updateCommonOrders_step_updateErr E st n i rest eo lo e
              hfind hget hstat hupd] at h
            cases h
          · rw [updateCommonOrders_step_updateOk E st st1 n i rest eo lo
              hfind hget hstat hupd] at h
            have heo : eo.order_id = i := by
              have hp := List.find?_some hfind
              simpa using hp
            have hlookup := update_order_ok_lookup hupd id
            rw [if_neg (fun he => hne (he.trans heo).symm)] at hlookup
            rw [ih hid2 st1 (n + 1) st' n' h, hlookup]

/-- A successful common-id loop preserves well-formedness. -/
theorem updateCommon_wf (E : List Order) :
    ∀ ids : List String, ∀ (st : OMSState) (n : ℕ) (st' : OMSState) (n' : ℕ),
      st.wf → updateCommonOrders E st n ids = .ok (st', n') → st'.wf := by
  intro ids
  induction ids with
  | nil =>
    intro st n st' n' hwf h
    cases h
    exact hwf
  | cons i rest ih =>
    intro st n st' n' hwf h
    rcases hfind : E.find? (fun o => o.order_id == i) with _ | eo
    · rw [updateCommonOrders_step_findNone E st n i rest hfind] at h
      exact ih st n st' n' hwf h
    · rcases hget : get_order st i with _ | lo
      · rw [updateCommonOrders_step_getNone E st n i rest eo hfind hget] at h
        exact ih st n st' n' hwf h
      · by_cases hstat : lo.status = eo.status
        · rw [updateCommonOrders_step_skipEq E st n i rest eo lo hfind hget
            hstat] at h
          exact ih st n st' n' hwf h
        · rcases hupd : update_order st eo with e | st1
          · rw [updateCommonOrders_step_updateErr E st n i rest eo lo e
              hfind hget hstat hupd] at h
            cases h
          · rw [updateCommonOrders_step_updateOk E st st1 n i rest eo lo
              hfind hget hstat hupd] at h
            exact ih st1 (n + 1) st' n' (update_order_ok_wf hwf hupd) h

/-- After a successful common-id loop, every processed id with a found
venue record and a local record ends up stored with the venue status
(either the venue record itself or the untouched local record whose
status already agreed). -/
theorem updateCommon_status (E : List Order) :
    ∀ ids : List String, ids.Nodup →
      ∀ (st : OMSState) (n : ℕ) (st' : OMSState) (n' : ℕ),
      updateCommonOrders E st n ids = .ok (st', n') →
      ∀ i ∈ ids, ∀ eo, E.find? (fun o => o.order_id == i) = some eo →
      ∀ lo, dictGet st.orders i = some lo →
      ∃ o', dictGet st'.orders i = some o' ∧ o'.status = eo.status ∧
        (o' = eo ∨ o' = lo) := by
  intro ids
  induction ids with
  | nil =>
    intro _ st n st' n' _ i hi
    cases hi
  | cons j rest ih =>
    intro hnd st n st' n' h i hi eo hfind lo hlo
    rw [List.nodup_cons] at hnd
    rcases hfind0 : E.find? (fun o => o.order_id == j) with _ | eoj
    · rw [updateCommonOrders_step_findNone E st n j rest hfind0] at h
      rcases List.mem_cons.mp hi with hij | hirest
      · subst hij
        rw [hfind0] at hfind
        cases hfind
      · exact ih hnd.2 st n st' n' h i hirest eo hfind lo hlo
    · rcases hget0 : get_order st j with _ | loj
      · rw [updateCommonOrders_step_getNone E st n j rest eoj hfind0
          hget0] at h
        rcases List.mem_cons.mp hi with hij | hirest
        · subst hij
          have hget0' : dictGet st.orders i = none := hget0
          rw [hget0'] at hlo
          cases hlo
        · exact ih hnd.2 st n st' n' h i hirest eo hfind lo hlo
      · by_cases hstat : loj.status = eoj.status
        · rw [updateCommonOrders_step_skipEq E st n j rest eoj loj hfind0
            hget0 hstat] at h
          rcases List.mem_cons.mp hi with hij | hirest
          · subst hij
            rw [hfind0] at hfind
            injection hfind with hfe
            have hget0' : dictGet st.orders i = some loj := hget0
            rw [hget0'] at hlo
            injection hlo with hle
            have huntouched := updateCommon_untouched E i rest hnd.1
              st n st' n' h
            refine ⟨lo, ?_, ?_, Or.inr rfl⟩
            · rw [huntouched, hget0', hle]
            · rw [← hle, hstat, hfe]
          · exact ih hnd.2 st n st' n' h i hirest eo hfind lo hlo
        · rcases hupd : update_order st eoj with e | st1
          · rw [updateCommonOrders_step_updateErr E st n j rest eoj loj e
              hfind0 hget0 hstat hupd] at h
            cases h
          · rw [updateCommonOrders_step_updateOk E st st1 n j rest eoj loj
              hfind0 hget0 hstat hupd] at h
            have heoj : eoj.order_id = j := by
              have hp := List.find?_some hfind0
              simpa using hp
            rcases List.mem_cons.mp hi with hij | hirest
            · subst hij
              rw [hfind0] at hfind
              injection hfind with hfe
              have huntouched := updateCommon_untouched E i rest hnd.1
                st1 (n + 1) st' n' h
              have hlookup := update_order_ok_lookup hupd i
              rw [if_pos heoj.symm] at hlookup
              refine ⟨eoj, ?_, ?_, Or.inl hfe⟩
              · rw [huntouched, hlookup]
              · rw [hfe]
            · have hne : i ≠ j := fun he => hnd.1 (he ▸ hirest)
              have hlookup := update_order_ok_lookup hupd i
              rw [if_neg (fun he => hne (he.trans heoj))] at hlookup
              exact ih hnd.2 st1 (n + 1) st' n' h i hirest eo hfind lo
                (hlookup.trans hlo)

/-- If every processed id's local status already agrees with the found
venue record, the common-id loop is a no-op. -/
theorem updateCommon_noop (E : List Order) (st : OMSState) :
    ∀ ids : List String,
      (∀ i ∈ ids, ∀ eo, E.find? (fun o => o.order_id == i) = some eo →
        ∀ lo, dictGet st.orders i = some lo → lo.status = eo.status) →
      ∀ n : ℕ, updateCommonOrders E st n ids = .ok (st, n) := by
  intro ids
  induction ids with
  | nil =>
    intro _ n
    rfl
  | cons i rest ih =>
    intro h n
    have h2 := fun i2 hi2 => h i2 (List.mem_cons_of_mem _ hi2)
    rcases hfind : E.find? (fun o => o.order_id == i) with _ | eo
    · rw [updateCommonOrders_step_findNone E st n i rest hfind]
      exact ih h2 n
    · rcases hget : get_order st i with _ | lo
      · rw [updateCommonOrders_step_getNone E st n i rest eo hfind hget]
        exact ih h2 n
      · have hstat : lo.status = eo.status :=
          h i (List.mem_cons_self _ _) eo hfind lo hget
        rw [updateCommonOrders_step_skipEq E st n i rest eo lo hfind hget
          hstat]
        exact ih h2 n

/-- A terminal status is never active (the two predicates partition by
construction in order_manager.py). -/
theorem terminal_not_active (s : OrderStatus)
    (h : is_terminal_state s = true) : is_active_state s = false := by
  revert h
  revert s
  decide

set_option maxHeartbeats 2000000 in
/-- **C6.** Reconciliation is idempotent: run `reconcile_orders` twice with
unchanged venue answers (the same `get_open_orders` response `E` — distinct
ids, active statuses, matching the symbol filter — and the same per-id
`get_order_status` response `query`, whose records carry the queried id and,
for locally-open orders absent from the venue, a terminal status).  If the
first run returns, the second run leaves the registry untouched and its
report has `updates_applied = 0`. -/
theorem reconcile_idempotent (st : OMSState) (symbol : Option String)
    (E : List Order) (query : String → Option Order)
    (st1 : OMSState) (r1 : ReconcileReport)
    (hwf : st.wf)
    (hEnd : (E.map (·.order_id)).Nodup)
    (hEactive : ∀ o ∈ E, is_active_state o.status = true)
    (hEsym : ∀ o ∈ E, matches_symbol symbol o = true)
    (hquery : ∀ id, id ∈ (get_open_orders st symbol).map (·.order_id) →
      id ∉ E.map (·.order_id) →
      ∀ rec, query id = some rec → rec.order_id = id ∧
        is_terminal_state rec.status = true)
    (hrun1 : reconcile_orders st symbol E query = .ok (st1, r1)) :
    ∃ r2, reconcile_orders st1 symbol E query = .ok (st1, r2) ∧
      r2.updates_applied = 0 := by
  simp only [reconcile_orders] at hrun1
  split at hrun1
  · exact Except.noConfusion hrun1
  rename_i stA heqA
  split at hrun1
  · exact Except.noConfusion hrun1
  rename_i r3 heq2
  obtain ⟨st1', n'⟩ := r3
  injection hrun1 with hpair
  have hst1 : st1 = st1' := (congrArg Prod.fst hpair).symm
  subst hst1
  -- run-1 side conditions for the three loops
  have hwfA : stA.wf := addStrays_ok_wf hwf heqA
  have hstraysNd : ((E.filter (fun o =>
      ¬ ((get_open_orders st symbol).map (·.order_id)).contains
        o.order_id)).map (·.order_id)).Nodup :=
    hEnd.sublist ((List.filter_sublist E).map (·.order_id))
  have honex1q : ∀ i ∈ ((get_open_orders st symbol).map
        (·.order_id)).filter (fun id => ¬ (E.map (·.order_id)).contains id),
      ∀ rec, query i = some rec → rec.order_id = i := by
    intro i hi rec hq
    have h1 := (List.mem_filter.mp hi).1
    have h2 := (List.mem_filter.mp hi).2
    simp only [decide_eq_true_eq] at h2
    exact (hquery i h1 (fun hc => h2 (List.elem_iff.mpr hc)) rec hq).1
  have honexNd : (((get_open_orders st symbol).map (·.order_id)).filter
      (fun id => ¬ (E.map (·.order_id)).contains id)).Nodup :=
    List.Nodup.filter _ (open_ids_nodup hwf symbol)
  have hwfB : (queryAbsentOrders query stA
      ((E.map (·.order_id)).filter (fun id =>
        ¬ ((get_open_orders st symbol).map (·.order_id)).contains id)).length
      (((get_open_orders st symbol).map (·.order_id)).filter
        (fun id => ¬ (E.map (·.order_id)).contains id))).1.wf :=
    queryAbsent_wf query _ stA _ hwfA
  have hwf1 : st1.wf := updateCommon_wf E _ _ _ st1 n' hwfB heq2
  -- every venue order ends the first run stored, active, and matching,
  -- with the venue status
  have hA : ∀ o ∈ E, ∃ o', dictGet st1.orders o.order_id = some o' ∧
      o'.status = o.status ∧ is_active_state o'.status = true ∧
      matches_symbol symbol o' = true := by
    intro o hoE
    by_cases hmem : o.order_id ∈ (get_open_orders st symbol).map (·.order_id)
    · obtain ⟨lo, hlo, hloact, hlomat⟩ :=
        (mem_open_ids_iff hwf symbol o.order_id).mp hmem
      have hAdd : dictGet stA.orders o.order_id =
          dictGet st.orders o.order_id := by
        apply addStrays_ok_untouched heqA o.order_id
        intro o3 h3 he
        have h2 := (List.mem_filter.mp h3).2
        simp only [decide_eq_true_eq] at h2
        apply h2
        rw [he]
        exact List.elem_iff.mpr hmem
      have hnotonex : o.order_id ∉ ((get_open_orders st symbol).map
          (·.order_id)).filter (fun id =>
            ¬ (E.map (·.order_id)).contains id) := by
        intro hin
        have h2 := (List.mem_filter.mp hin).2
        simp only [decide_eq_true_eq] at h2
        exact h2 (List.elem_iff.mpr (List.mem_map_of_mem _ hoE))
      have hQB : dictGet (queryAbsentOrders query stA
          ((E.map (·.order_id)).filter (fun id =>
            ¬ ((get_open_orders st symbol).map
              (·.order_id)).contains id)).length
          (((get_open_orders st symbol).map (·.order_id)).filter
            (fun id => ¬ (E.map (·.order_id)).contains id))).1.orders
          o.order_id = some lo := by
        rw [queryAbsent_untouched query o.order_id _ honex1q hnotonex stA _,
          hAdd]
        exact hlo
      have hcommonmem : o.order_id ∈ (E.map (·.order_id)).filter
          (fun id => ((get_open_orders st symbol).map
            (·.order_id)).contains id) :=
        List.mem_filter.mpr ⟨List.mem_map_of_mem _ hoE,
          List.elem_iff.mpr hmem⟩
      have hfind : E.find? (fun x => x.order_id == o.order_id) = some o := by
        apply find?_eq_some_of_unique E _ o hoE (by simp)
        intro b hb hpb
        have hpb2 : b.order_id = o.order_id := by simpa using hpb
        exact List.inj_on_of_nodup_map hEnd hb hoE hpb2
      have hcommonNd : ((E.map (·.order_id)).filter
          (fun id => ((get_open_orders st symbol).map
            (·.order_id)).contains id)).Nodup :=
        List.Nodup.filter _ hEnd
      obtain ⟨o', ho'look, ho'stat, ho'or⟩ :=
        updateCommon_status E _ hcommonNd _ _ st1 n' heq2 o.order_id
          hcommonmem o hfind lo hQB
      refine ⟨o', ho'look, ho'stat, ?_, ?_⟩
      · rw [ho'stat]
        exact hEactive o hoE
      · rcases ho'or with he | he
        · rw [he]
          exact hEsym o hoE
        · rw [he]
          exact hlomat
    · have hstray : o ∈ E.filter (fun o =>
          ¬ ((get_open_orders st symbol).map (·.order_id)).contains
            o.order_id) :=
        List.mem_filter.mpr ⟨hoE,
          decide_eq_true (fun hc => hmem (List.elem_iff.mp hc))⟩
      have hAdd : dictGet stA.orders o.order_id = some o :=
        addStrays_ok_mem heqA hstraysNd o hstray
      have hnotonex : o.order_id ∉ ((get_open_orders st symbol).map
          (·.order_id)).filter (fun id =>
            ¬ (E.map (·.order_id)).contains id) := by
        intro hin
        have h2 := (List.mem_filter.mp hin).2
        simp only [decide_eq_true_eq] at h2
        exact h2 (List.elem_iff.mpr (List.mem_map_of_mem _ hoE))
      have hQB : dictGet (queryAbsentOrders query stA
          ((E.map (·.order_id)).filter (fun id =>
            ¬ ((get_open_orders st symbol).map
              (·.order_id)).contains id)).length
          (((get_open_orders st symbol).map (·.order_id)).filter
            (fun id => ¬ (E.map (·.order_id)).contains id))).1.orders
          o.order_id = some o := by
        rw [queryAbsent_untouched query o.order_id _ honex1q hnotonex stA _]
        exact hAdd
      have hnotcommon : o.order_id ∉ (E.map (·.order_id)).filter
          (fun id => ((get_open_orders st symbol).map
            (·.order_id)).contains id) := by
        intro hin
        have h2 := (List.mem_filter.mp hin).2
        exact hmem (List.elem_iff.mp h2)
      have hfinal := updateCommon_untouched E o.order_id _ hnotcommon
        _ _ st1 n' heq2
      exact ⟨o, hfinal.trans hQB, rfl, hEactive o hoE, hEsym o hoE⟩
  -- hence every venue id is open locally after the first run
  have hEinL2 : ∀ o ∈ E, o.order_id ∈
      (get_open_orders st1 symbol).map (·.order_id) := by
    intro o hoE
    obtain ⟨o', h1, _, h3, h4⟩ := hA o hoE
    exact (mem_open_ids_iff hwf1 symbol o.order_id).mpr ⟨o', h1, h3, h4⟩
  -- the second run's stray and missing-locally sets are empty
  have hstrays2 : E.filter (fun o =>
      ¬ ((get_open_orders st1 symbol).map (·.order_id)).contains
        o.order_id) = [] := by
    refine List.filter_eq_nil_iff.mpr ?_
    intro o hoE
    simp only [decide_eq_true_eq]
    exact fun hc => hc (List.elem_iff.mpr (hEinL2 o hoE))
  have hmiss2 : (E.map (·.order_id)).filter (fun id =>
      ¬ ((get_open_orders st1 symbol).map (·.order_id)).contains id)
      = [] := by
    refine List.filter_eq_nil_iff.mpr ?_
    intro id hid
    obtain ⟨o, hoE, rfl⟩ := List.mem_map.mp hid
    simp only [decide_eq_true_eq]
    exact fun hc => hc (List.elem_iff.mpr (hEinL2 o hoE))
  -- the second run's missing-on-exchange loop fails at every id
  have hnoop2cond : ∀ id ∈ ((get_open_orders st1 symbol).map
        (·.order_id)).filter (fun id => ¬ (E.map (·.order_id)).contains id),
      dictGet st1.orders id = none ∨ query id = none ∨
        ∃ ex rec, dictGet st1.orders id = some ex ∧ query id = some rec ∧
          rec.order_id = id ∧ ex.status ≠ rec.status ∧
          can_transition ex.status rec.status = false := by
    intro id hid
    have hidL2 : id ∈ (get_open_orders st1 symbol).map (·.order_id) :=
      (List.mem_filter.mp hid).1
    have hidnE : id ∉ E.map (·.order_id) := by
      have h2 := (List.mem_filter.mp hid).2
      simp only [decide_eq_true_eq] at h2
      exact fun hc => h2 (List.elem_iff.mpr hc)
    obtain ⟨o2, ho2, ho2act, ho2mat⟩ :=
      (mem_open_ids_iff hwf1 symbol id).mp hidL2
    have hsuntouched : dictGet stA.orders id = dictGet st.orders id := by
      apply addStrays_ok_untouched heqA id
      intro o3 h3 he
      exact hidnE (he ▸ List.mem_map_of_mem (·.order_id)
        (List.mem_of_mem_filter h3))
    have hcuntouched : dictGet st1.orders id =
        dictGet (queryAbsentOrders query stA
          ((E.map (·.order_id)).filter (fun id =>
            ¬ ((get_open_orders st symbol).map
              (·.order_id)).contains id)).length
          (((get_open_orders st symbol).map (·.order_id)).filter
            (fun id => ¬ (E.map (·.order_id)).contains id))).1.orders id :=
      updateCommon_untouched E id _
        (fun hin => hidnE (List.mem_of_mem_filter hin)) _ _ st1 n' heq2
    have hidL1 : id ∈ (get_open_orders st symbol).map (·.order_id) := by
      by_contra hnot
      have hqun := queryAbsent_untouched query id
        (((get_open_orders st symbol).map (·.order_id)).filter
          (fun id => ¬ (E.map (·.order_id)).contains id)) honex1q
        (fun hin => hnot (List.mem_of_mem_filter hin)) stA
        ((E.map (·.order_id)).filter (fun id =>
          ¬ ((get_open_orders st symbol).map
            (·.order_id)).contains id)).length
      have hsame : dictGet st1.orders id = dictGet st.orders id := by
        rw [hcuntouched, hqun, hsuntouched]
      exact hnot ((mem_open_ids_iff hwf symbol id).mpr
        ⟨o2, hsame ▸ ho2, ho2act, ho2mat⟩)
    have hidonex : id ∈ ((get_open_orders st symbol).map
        (·.order_id)).filter (fun id =>
          ¬ (E.map (·.order_id)).contains id) :=
      List.mem_filter.mpr ⟨hidL1,
        decide_eq_true (fun hc => hidnE (List.elem_iff.mp hc))⟩
    obtain ⟨lo1, hlo1, hlo1act, _⟩ :=
      (mem_open_ids_iff hwf symbol id).mp hidL1
    have hloA : dictGet stA.orders id = some lo1 := by
      rw [hsuntouched]
      exact hlo1
    have hchar := queryAbsent_lookup_char query
      (((get_open_orders st symbol).map (·.order_id)).filter
        (fun id => ¬ (E.map (·.order_id)).contains id)) honexNd honex1q
      stA ((E.map (·.order_id)).filter (fun id =>
        ¬ ((get_open_orders st symbol).map
          (·.order_id)).contains id)).length id hidonex
    rw [hloA] at hchar
    rcases hqid : query id with _ | rec
    · exact Or.inr (Or.inl rfl)
    · rw [hqid] at hchar
      have hchar2 : dictGet (queryAbsentOrders query stA
          ((E.map (·.order_id)).filter (fun id =>
            ¬ ((get_open_orders st symbol).map
              (·.order_id)).contains id)).length
          (((get_open_orders st symbol).map (·.order_id)).filter
            (fun id => ¬ (E.map (·.order_id)).contains id))).1.orders id =
          if lo1.status = rec.status ∨
              can_transition lo1.status rec.status = true then some rec
          else some lo1 := hchar
      obtain ⟨hrid, hterm⟩ := hquery id hidL1 hidnE rec hqid
      by_cases hcond : lo1.status = rec.status ∨
          can_transition lo1.status rec.status = true
      · exfalso
        rw [if_pos hcond] at hchar2
        have hst1id : dictGet st1.orders id = some rec := by
          rw [hcuntouched, hchar2]
        rw [hst1id] at ho2
        injection ho2 with hre
        have hnact : is_active_state rec.status = false :=
          terminal_not_active rec.status hterm
        rw [hre] at hnact
        rw [hnact] at ho2act
        cases ho2act
      · refine Or.inr (Or.inr ⟨lo1, rec, ?_, rfl, hrid, ?_, ?_⟩)
        · rw [hcuntouched, hchar2, if_neg hcond]
        · exact fun he => hcond (Or.inl he)
        · rcases hcanv : can_transition lo1.status rec.status
          · rfl
          · exact absurd (Or.inr hcanv) hcond
  -- the second run's common loop finds every status already in agreement
  have hcommon2cond : ∀ i ∈ (E.map (·.order_id)).filter (fun id =>
        ((get_open_orders st1 symbol).map (·.order_id)).contains id),
      ∀ eo, E.find? (fun o => o.order_id == i) = some eo →
      ∀ lo, dictGet st1.orders i = some lo → lo.status = eo.status := by
    intro i hi eo hfind lo hlo
    have heoE : eo ∈ E := List.mem_of_find?_eq_some hfind
    have heoid : eo.order_id = i := by simpa using List.find?_some hfind
    obtain ⟨o', h1, h2, _, _⟩ := hA eo heoE
    rw [heoid] at h1
    rw [h1] at hlo
    injection hlo with hloe
    rw [← hloe, h2]
  have hq2noop := queryAbsent_noop query st1
    (((get_open_orders st1 symbol).map (·.order_id)).filter
      (fun id => ¬ (E.map (·.order_id)).contains id)) hnoop2cond
  have hc2noop := updateCommon_noop E st1
    ((E.map (·.order_id)).filter (fun id =>
      ((get_open_orders st1 symbol).map (·.order_id)).contains id))
    hcommon2cond
  refine ⟨{ total_exchange_orders := E.length,
            total_local_orders := (get_open_orders st1 symbol).length,
            missing_locally := 0,
            missing_on_exchange :=
              (((get_open_orders st1 symbol).map (·.order_id)).filter
                (fun id => ¬ (E.map (·.order_id)).contains id)).length,
            common_orders := ((E.map (·.order_id)).filter (fun id =>
              ((get_open_orders st1 symbol).map
                (·.order_id)).contains id)).length,
            updates_applied := 0 }, ?_, rfl⟩
  simp only [reconcile_orders]
  rw [hstrays2, hmiss2]
  simp only [addStrays, hq2noop, hc2noop, List.length_nil]

/-- Concrete instantiation of `reconcile_idempotent`: an empty registry
against an empty venue snapshot. -/
theorem reconcile_idempotent_witness :
    ∃ r2, reconcile_orders ⟨[], [], []⟩ none [] (fun _ => none) =
        .ok (⟨[], [], []⟩, r2) ∧ r2.updates_applied = 0 :=
  reconcile_idempotent ⟨[], [], []⟩ none [] (fun _ => none) ⟨[], [], []⟩
    ⟨0, 0, 0, 0, 0, 0⟩
    ⟨List.nodup_nil, fun kv hkv => absurd hkv (List.not_mem_nil kv)⟩
    (by simp)
    (fun o ho => absurd ho (List.not_mem_nil o))
    (fun o ho => absurd ho (List.not_mem_nil o))
    (fun _ _ _ rec hq => Option.noConfusion hq)
    rfl
